import Mathlib

/-!
Verification of the thinkcyber_server REST backend (Node/Express over PostgreSQL).

The relevant request handlers are shallowly embedded as pure Lean functions over
explicit table states (lists of rows).  JavaScript request values that matter to
the claims (ids that may be strings or numbers, truthiness-based defaulting,
`parseInt` prefix parsing) are modelled explicitly.  PostgreSQL behaviour that
the handlers rely on is modelled where the routes depend on it: strict integer
casts of bound parameters, `ON DELETE CASCADE` from topic_modules to
topic_videos, integer division in `SUM(duration_seconds)/60`, and the rule that
a parameterized statement referencing a placeholder beyond the supplied
parameter list fails to bind.
-/

/-! ## JavaScript value model -/

/-- A JSON scalar that can arrive in an `id` field of a request body:
either a string or a number (integers only; the routes never produce
fractional ids). -/
inductive JsVal where
  | str (s : String)
  | num (n : Int)
deriving DecidableEq, Repr

/-- JavaScript `a || d` for an optional string field: `undefined` and the
empty string are falsy and fall back to the default. -/
def jsOrStr (o : Option String) (d : String) : String :=
  match o with
  | some s => if s = "" then d else s
  | none => d

/-- JavaScript `a || d` for an optional integer field: `undefined` and `0`
are falsy and fall back to the default. -/
def jsOrInt (o : Option Int) (d : Int) : Int :=
  match o with
  | some n => if n = 0 then d else n
  | none => d

/-- Value of a list of decimal digit characters, most significant first. -/
def digitsVal (cs : List Char) : Nat :=
  cs.foldl (fun a c => 10 * a + (c.toNat - 48)) 0

/-- The ASCII whitespace characters that JavaScript's parseInt skips at
the front of its argument and that PostgreSQL's integer cast accepts
around a number (space, tab, line feed, vertical tab, form feed, carriage
return). -/
def numSpace (c : Char) : Bool :=
  c = ' ' || c = '\t' || c = '\n' || c = '\x0b' || c = '\x0c' || c = '\r'

/-- JavaScript `parseInt` on a string: skip leading whitespace, optional
sign, then the longest prefix of decimal digits; `NaN` (here `none`) when
that prefix is empty. -/
def jsParseIntStr (s : String) : Option Int :=
  let cs := s.data.dropWhile (fun c => numSpace c)
  match cs with
  | '-' :: rest =>
      let d := rest.takeWhile Char.isDigit
      if d.isEmpty then none else some (-(digitsVal d : Int))
  | '+' :: rest =>
      let d := rest.takeWhile Char.isDigit
      if d.isEmpty then none else some ((digitsVal d : Int))
  | _ =>
      let d := cs.takeWhile Char.isDigit
      if d.isEmpty then none else some ((digitsVal d : Int))

/-- JavaScript `parseInt` on a JSON scalar (numbers stringify and re-parse
to themselves for integers). -/
def jsParseInt (v : JsVal) : Option Int :=
  match v with
  | .str s => jsParseIntStr s
  | .num n => some n

/-- PostgreSQL cast of a text value to `integer`: optional surrounding
whitespace, optional sign, and the whole remainder must be digits.  Used
when a handler binds a string id into an `integer` column comparison. -/
def pgParseInt (s : String) : Option Int :=
  let cs := ((s.data.dropWhile (fun c => numSpace c)).reverse.dropWhile
    (fun c => numSpace c)).reverse
  match cs with
  | '-' :: rest =>
      if !rest.isEmpty && rest.all Char.isDigit then some (-(digitsVal rest : Int)) else none
  | '+' :: rest =>
      if !rest.isEmpty && rest.all Char.isDigit then some ((digitsVal rest : Int)) else none
  | _ =>
      if !cs.isEmpty && cs.all Char.isDigit then some ((digitsVal cs : Int)) else none

/-- Binding a JSON id into an integer-typed SQL parameter: a number binds
as itself, a string must cast cleanly or the statement (and hence the
enclosing transaction) errors. -/
def sqlInt (v : JsVal) : Except String Int :=
  match v with
  | .num n => .ok n
  | .str s =>
      match pgParseInt s with
      | some n => .ok n
      | none => .error ("invalid input syntax for type integer")

/-- JavaScript `String.prototype.trim`: strip whitespace from both ends. -/
def jsTrim (s : String) : String :=
  ⟨((s.data.dropWhile Char.isWhitespace).reverse.dropWhile Char.isWhitespace).reverse⟩

/-- A required request string is valid when it is present and not
whitespace-only (the handlers check `!s || s.trim() === ''`). -/
def reqStrOk (o : Option String) : Bool :=
  match o with
  | some s => jsTrim s ≠ ""
  | none => false

/-! ## Categories (category.js) -/

/-- Row of the `category` table (fields the claims touch). -/
structure CategoryRow where
  id : Int
  name : String
  description : String
  status : String
deriving DecidableEq, Repr

/-- Row of the `subcategory` table (fields the claims touch). -/
structure SubcategoryRow where
  id : Int
  name : String
  categoryId : Int
deriving DecidableEq, Repr

/-- The status allow-list used by the category routes. -/
def validStatuses : List String := ["Active", "Inactive", "Draft"]

/-- Category status normalization used by both POST and PUT
(`status && validStatuses.includes(status) ? status : 'Active'`). -/
def catStatusOf (o : Option String) : String :=
  match o with
  | some st => if st ≠ "" && validStatuses.contains st then st else "Active"
  | none => "Active"

/-- Body of PUT /api/categories/:id. -/
structure CategoryUpdateBody where
  name : Option String
  description : Option String
  status : Option String
deriving Repr

/-- PUT /api/categories/:id (category.js lines 294-366).  Returns the HTTP
status and the resulting `category` table. -/
def putCategory (cats : List CategoryRow) (idParam : String) (body : CategoryUpdateBody) :
    Nat × List CategoryRow :=
  match jsParseIntStr idParam with
  | none => (400, cats)
  | some cid =>
    if cid = 0 then (400, cats)
    else if ¬ reqStrOk body.name then (400, cats)
    else if ¬ reqStrOk body.description then (400, cats)
    else if cats.all (fun c => c.id ≠ cid) then (404, cats)
    else
      (200, cats.map (fun c =>
        if c.id = cid then
          { c with
            name := jsTrim (jsOrStr body.name "")
            description := jsTrim (jsOrStr body.description "")
            status := catStatusOf body.status }
        else c))

/-- DELETE /api/categories/:id (category.js lines 369-425).  Rejects the
deletion with 400 when the category still has subcategories. -/
def deleteCategory (cats : List CategoryRow) (subs : List SubcategoryRow) (idParam : String) :
    Nat × List CategoryRow :=
  match jsParseIntStr idParam with
  | none => (400, cats)
  | some cid =>
    if cid = 0 then (400, cats)
    else if cats.all (fun c => c.id ≠ cid) then (404, cats)
    else if (subs.filter (fun s => s.categoryId = cid)).length > 0 then (400, cats)
    else (200, cats.filter (fun c => c.id ≠ cid))

/-! ## Theorems for the category claims -/

/-! ## Slug generation (topics.js lines 182-189 and the uniqueness loop at 508-519) -/

/-- Collapse every maximal run of characters satisfying `p` into the single
character `c` (the effect of a global regex replace of `p`-runs by `c`). -/
def collapseRuns (p : Char → Bool) (c : Char) : List Char → List Char
  | [] => []
  | [x] => if p x then [c] else [x]
  | x :: y :: xs =>
    if p x && p y then collapseRuns p c (y :: xs)
    else (if p x then c else x) :: collapseRuns p c (y :: xs)

/-- Characters kept by generateSlug's strip step: the class [a-z0-9 -]. -/
def slugKeep (c : Char) : Bool :=
  (97 ≤ c.toNat && c.toNat ≤ 122) || (48 ≤ c.toNat && c.toNat ≤ 57) || c = ' ' || c = '-'

/-- generateSlug (topics.js lines 182-189): lowercase, strip characters
outside [a-z0-9 -], collapse whitespace runs to single hyphens, collapse
hyphen runs, then the regex `/^-|-$/g` removes one leading and one trailing
hyphen. -/
def generateSlug (title : String) : String :=
  let cs0 := title.data.map Char.toLower
  let cs1 := cs0.filter slugKeep
  let cs2 := collapseRuns (fun c => c.isWhitespace) '-' cs1
  let cs3 := collapseRuns (fun c => c = '-') '-' cs2
  let cs4 := match cs3 with
    | '-' :: rest => rest
    | l => l
  let cs5 := match cs4.reverse with
    | '-' :: rest => rest.reverse
    | _ => cs4
  ⟨cs5⟩

/-- Decimal digits of a natural number, least significant first, with
explicit fuel so that the definition reduces in the kernel. -/
def decAux : Nat → Nat → List Nat
  | 0, _ => []
  | fuel + 1, n => if n = 0 then [] else n % 10 :: decAux fuel (n / 10)

/-- Decimal string of a counter value, as JavaScript template interpolation
produces it in `${baseSlug}-${counter}`. -/
def natToDec (n : Nat) : String :=
  if n = 0 then "0" else ⟨((decAux (n + 1) n).map (fun d => Char.ofNat (48 + d))).reverse⟩

/-- The k-th slug candidate tried by the uniqueness loop: the base slug
itself, then base-1, base-2, ... -/
def slugCandidate (base : String) : Nat → String
  | 0 => base
  | k + 1 => base ++ "-" ++ natToDec (k + 1)

/-- The slug uniqueness loop of POST /api/topics (topics.js lines 508-519):
starting from candidate index k, return the first candidate that is not
among the existing slugs, trying at most `fuel` candidates.  The JavaScript
loop is `while (true)`; the fuel makes the recursion structural, and
`findUniqueSlug_total` below shows `existing.length + 1` trials always
suffice, so the modelled loop computes the loop's exit value. -/
def slugSearch (existing : List String) (base : String) : Nat → Nat → Option String
  | 0, _ => none
  | fuel + 1, k =>
    if slugCandidate base k ∈ existing then slugSearch existing base fuel (k + 1)
    else some (slugCandidate base k)

/-- The slug chosen for a new topic title against the existing slug column. -/
def findUniqueSlug (existing : List String) (base : String) : Option String :=
  slugSearch existing base (existing.length + 1) 0

/-! ## Topics table and lifecycle routes (topicsActions router, unnamed part_005) -/

/-- Row of the `topics` table (fields the claims touch). -/
structure TopicRow where
  id : Int
  title : String
  slug : String
  status : String
  publishedAt : Option Int
  description : String
  durationMinutes : Int
deriving DecidableEq, Repr

/-- POST /api/topics/:id/publish (part_005 lines 194-231): a single UPDATE
guarded by `status != 'published'`; zero affected rows answer 404. -/
def publishTopic (topics : List TopicRow) (tid : Int) (now : Int) : Nat × List TopicRow :=
  let updated := topics.map (fun r =>
    if r.id = tid ∧ r.status ≠ "published" then
      { r with status := "published", publishedAt := some now }
    else r)
  if (topics.filter (fun r => r.id = tid ∧ r.status ≠ "published")).isEmpty then
    (404, updated)
  else (200, updated)

/-- Placeholders referenced by the INSERT of POST /api/topics/:id/duplicate
(part_005 lines 144-151): the VALUES list is
`$1,...,$7,'draft',false,$9,...,$17`, so `$8` is skipped and `$17` is
referenced. -/
def duplicateInsertPlaceholders : List Nat :=
  [1, 2, 3, 4, 5, 6, 7, 9, 10, 11, 12, 13, 14, 15, 16, 17]

/-- PostgreSQL accepts a parameterized statement only when every referenced
placeholder is within the supplied parameter list. -/
def pgBindOk (placeholders : List Nat) (supplied : Nat) : Bool :=
  placeholders.all (fun p => p ≤ supplied)

/-- POST /api/topics/:id/duplicate (part_005 lines 108-191).  The handler
supplies 16 parameters (lines 152-169); since the statement references
`$17`, the bind fails before any row is inserted and the catch block
answers 500.  The unreachable `none` branch of the slug allocator is ruled
out by `findUniqueSlug_total`. -/
def duplicateTopic (topics : List TopicRow) (nextTopicId : Int) (tid : Int) :
    Nat × List TopicRow :=
  match topics.find? (fun r => r.id = tid) with
  | none => (404, topics)
  | some r =>
    let newTitle := r.title ++ " (Copy)"
    match findUniqueSlug (topics.map (fun t => t.slug)) (generateSlug newTitle) with
    | none => (500, topics)
    | some newSlug =>
      if pgBindOk duplicateInsertPlaceholders 16 then
        (201, topics ++ [{ r with
            id := nextTopicId
            title := newTitle
            slug := newSlug
            status := "draft"
            publishedAt := none }])
      else (500, topics)

/-! ## Modules, videos and the duration columns (topicsVideos.js) -/

/-- Row of the `topic_modules` table (fields the claims touch). -/
structure ModuleRow where
  id : Int
  topicId : Int
  title : String
  description : String
  orderIndex : Int
  durationMinutes : Int
deriving DecidableEq, Repr

/-- Row of the `topic_videos` table (fields the claims touch). -/
structure VideoRow where
  id : Int
  topicId : Int
  moduleId : Int
  title : String
  description : String
  videoUrl : String
  durationSeconds : Int
  orderIndex : Int
deriving DecidableEq, Repr

/-- The database state a request handler sees: the three content tables and
the SERIAL sequences that mint module and video ids. -/
structure Db where
  topics : List TopicRow
  modules : List ModuleRow
  videos : List VideoRow
  nextModuleId : Int
  nextVideoId : Int
deriving DecidableEq, Repr

/-- SQL `SELECT COALESCE(SUM(duration_seconds), 0) FROM topic_videos WHERE
module_id = $1`. -/
def moduleVideoSeconds (videos : List VideoRow) (mid : Int) : Int :=
  ((videos.filter (fun v => v.moduleId = mid)).map (fun v => v.durationSeconds)).sum

/-- SQL `SELECT COALESCE(SUM(duration_minutes), 0) FROM topic_modules WHERE
topic_id = $1`. -/
def topicModuleMinutes (modules : List ModuleRow) (tid : Int) : Int :=
  ((modules.filter (fun m => m.topicId = tid)).map (fun m => m.durationMinutes)).sum

/-- The module-duration recompute statement of the upload routes
(topicsVideos.js lines 682-691): `duration_minutes = SUM(duration_seconds)/60`,
where `/` is PostgreSQL integer division (truncation toward zero). -/
def recomputeModuleDuration (db : Db) (mid : Int) : Db :=
  { db with modules := db.modules.map (fun m =>
      if m.id = mid then
        { m with durationMinutes := (moduleVideoSeconds db.videos mid).tdiv 60 }
      else m) }

/-- The topic-duration recompute statement of the upload routes
(topicsVideos.js lines 694-703): `duration_minutes = SUM(tm.duration_minutes)`. -/
def recomputeTopicDuration (db : Db) (tid : Int) : Db :=
  { db with topics := db.topics.map (fun t =>
      if t.id = tid then
        { t with durationMinutes := topicModuleMinutes db.modules tid }
      else t) }

/-- Body of the JSON POST .../videos route. -/
structure VideoCreateBody where
  title : Option String
  description : Option String
  videoUrl : Option String
  durationSeconds : Int
  orderIndex : Option Int
deriving Repr

/-- POST /api/topics/:topicId/modules/:moduleId/videos (topicsVideos.js
lines 205-316): validates the title, checks the module, computes the order
index (`orderIndex || MAX(order_index)+1`), inserts the row - and performs
no duration recomputation. -/
def jsonInsertVideo (db : Db) (topicId moduleId : Int) (b : VideoCreateBody) : Nat × Db :=
  if ¬ reqStrOk b.title then (400, db)
  else if db.modules.all (fun m => ¬(m.id = moduleId ∧ m.topicId = topicId)) then (404, db)
  else
    let nextOrder := ((db.videos.filter (fun v => v.moduleId = moduleId)).map
      (fun v => v.orderIndex)).foldr max 0 + 1
    let videoOrder := jsOrInt b.orderIndex nextOrder
    let row : VideoRow :=
      ⟨db.nextVideoId, topicId, moduleId, jsTrim (jsOrStr b.title ""),
        b.description.getD "", b.videoUrl.getD "", b.durationSeconds, videoOrder⟩
    (201, { db with videos := db.videos ++ [row], nextVideoId := db.nextVideoId + 1 })

/-- Body of the JSON PUT .../videos/:videoId route (allow-listed fields the
claims touch; absent fields are left unchanged). -/
structure VideoUpdateBody where
  title : Option String
  description : Option String
  videoUrl : Option String
  durationSeconds : Option Int
  orderIndex : Option Int
deriving Repr

/-- Whether the PUT body carries at least one updatable field. -/
def VideoUpdateBody.hasField (b : VideoUpdateBody) : Bool :=
  b.title.isSome || b.description.isSome || b.videoUrl.isSome ||
    b.durationSeconds.isSome || b.orderIndex.isSome

/-- Application of the dynamic UPDATE built from the body's present fields. -/
def applyVideoUpdate (b : VideoUpdateBody) (v : VideoRow) : VideoRow :=
  { v with
    title := b.title.getD v.title
    description := b.description.getD v.description
    videoUrl := b.videoUrl.getD v.videoUrl
    durationSeconds := b.durationSeconds.getD v.durationSeconds
    orderIndex := b.orderIndex.getD v.orderIndex }

/-- PUT /api/topics/:topicId/modules/:moduleId/videos/:videoId
(topicsVideos.js lines 437-539): existence check against id and module_id,
then an UPDATE whose WHERE clause uses the id alone - and no duration
recomputation. -/
def jsonUpdateVideo (db : Db) (moduleId vid : Int) (b : VideoUpdateBody) : Nat × Db :=
  if db.videos.all (fun v => ¬(v.id = vid ∧ v.moduleId = moduleId)) then (404, db)
  else if ¬ b.hasField then (400, db)
  else (200, { db with videos := db.videos.map (fun v =>
    if v.id = vid then applyVideoUpdate b v else v) })

/-- DELETE /api/topics/:topicId/modules/:moduleId/videos/:videoId
(topicsVideos.js lines 542-576): existence check, then `DELETE FROM
topic_videos WHERE id = $1` - and no duration recomputation. -/
def jsonDeleteVideo (db : Db) (moduleId vid : Int) : Nat × Db :=
  if db.videos.all (fun v => ¬(v.id = vid ∧ v.moduleId = moduleId)) then (404, db)
  else (200, { db with videos := db.videos.filter (fun v => v.id ≠ vid) })

/-- Body fields of the single-file upload route. -/
structure VideoUploadBody where
  title : Option String
  description : Option String
  duration : Option Int
  order : Option Int
deriving Repr

/-- POST /api/topics/:topicId/modules/:moduleId/videos/upload
(topicsVideos.js lines 579-784), for a request whose multipart file was
accepted (the multer filter and the size check are outside this model;
`fileUrl` is the stored file's URL).  duration_seconds is
`duration ? parseFloat(duration) * 60 : 0`, the order `parseInt(order) || 1`,
and after the insert the module duration and then the topic duration are
recomputed from the current table contents. -/
def uploadVideo (db : Db) (topicId moduleId : Int) (b : VideoUploadBody)
    (fileUrl : String) : Nat × Db :=
  if ¬ reqStrOk b.title then (400, db)
  else if db.topics.all (fun t => t.id ≠ topicId) then (404, db)
  else if db.modules.all (fun m => ¬(m.id = moduleId ∧ m.topicId = topicId)) then (404, db)
  else
    let durationSeconds : Int :=
      match b.duration with
      | some d => if d = 0 then 0 else d * 60
      | none => 0
    let row : VideoRow :=
      ⟨db.nextVideoId, topicId, moduleId, jsTrim (jsOrStr b.title ""),
        jsTrim (jsOrStr b.description ""), fileUrl, durationSeconds, jsOrInt b.order 1⟩
    let db1 := { db with videos := db.videos ++ [row], nextVideoId := db.nextVideoId + 1 }
    let db2 := recomputeModuleDuration db1 moduleId
    let db3 := recomputeTopicDuration db2 topicId
    (200, db3)

/-- The duration denormalization invariant the spec asserts: every module's
duration_minutes is the (integer-divided) sum of its videos' seconds, every
topic's is the sum of its modules' minutes. -/
def durationInvariant (db : Db) : Prop :=
  (∀ m ∈ db.modules, m.durationMinutes = (moduleVideoSeconds db.videos m.id).tdiv 60) ∧
  (∀ t ∈ db.topics, t.durationMinutes = topicModuleMinutes db.modules t.id)

instance (db : Db) : Decidable (durationInvariant db) := by
  unfold durationInvariant
  infer_instance

/-- A concrete consistent state: topic 1 with module 10, no videos yet. -/
def dbDuration : Db :=
  ⟨[⟨1, "T", "t", "draft", none, "", 0⟩], [⟨10, 1, "M", "", 1, 0⟩], [], 11, 100⟩

/-! ## Express route matching (app.js mounting order, router registration order) -/

/-- A path-pattern segment: a literal, or a named parameter (`:id`). -/
inductive Seg where
  | lit (s : String)
  | param (s : String)
deriving DecidableEq, Repr

/-- A registered route: HTTP method, path pattern, and a tag naming its
handler. -/
structure Route where
  method : String
  pattern : List Seg
  handler : String
deriving DecidableEq, Repr

/-- A pattern segment matches a path segment. -/
def segMatch : Seg → String → Bool
  | .lit s, x => s = x
  | .param _, _ => true

/-- Express path matching for the patterns this app uses: same length,
literals equal, parameters match anything. -/
def routeMatches (r : Route) (method : String) (path : List String) : Bool :=
  r.method = method && r.pattern.length = path.length &&
    (List.zip r.pattern path).all (fun p => segMatch p.1 p.2)

/-- Express dispatch: the first registered route that matches handles the
request (none of the handlers here call next()). -/
def firstMatch (routes : List Route) (method : String) (path : List String) : Option Route :=
  routes.find? (fun r => routeMatches r method path)

/-- The parameter bindings a match produces. -/
def routeBindings (r : Route) (path : List String) : List (String × String) :=
  (List.zip r.pattern path).filterMap (fun p =>
    match p.1 with
    | .param name => some (name, p.2)
    | .lit _ => none)

/-- The /api route table in app.js mounting order (lines 218-227) with each
router's registrations in source order: category.js, subcategory.js,
terms-conditions.js, the privacy router (part_004), topics.js (lines
259-1963), the topics-actions router (part_005), the modules router
(part_006), and topicsVideos.js.  The customer router is mounted at the
bare root and the homepage, upload and auth routers (mounted after these or
under /api/auth) carry no pattern that can match a /topics path, so they
cannot affect first-match results for the requests below. -/
def appRoutes : List Route := [
  ⟨"GET", [.lit ("categories")], "listCategories"⟩,
  ⟨"POST", [.lit ("categories")], "createCategory"⟩,
  ⟨"PUT", [.lit ("categories"), .param ("id")], "updateCategory"⟩,
  ⟨"DELETE", [.lit ("categories"), .param ("id")], "removeCategory"⟩,
  ⟨"GET", [.lit ("subcategories")], "listSubcategories"⟩,
  ⟨"POST", [.lit ("subcategories")], "createSubcategory"⟩,
  ⟨"GET", [.lit ("subcategories"), .param ("id")], "getSubcategory"⟩,
  ⟨"PUT", [.lit ("subcategories"), .param ("id")], "updateSubcategory"⟩,
  ⟨"DELETE", [.lit ("subcategories"), .param ("id")], "removeSubcategory"⟩,
  ⟨"GET", [.lit ("terms")], "listTerms"⟩,
  ⟨"POST", [.lit ("terms")], "createTerms"⟩,
  ⟨"GET", [.lit ("terms"), .param ("id")], "getTerms"⟩,
  ⟨"PUT", [.lit ("terms"), .param ("id")], "updateTerms"⟩,
  ⟨"DELETE", [.lit ("terms"), .param ("id")], "removeTerms"⟩,
  ⟨"POST", [.lit ("terms"), .param ("id"), .lit ("publish")], "publishTerms"⟩,
  ⟨"GET", [.lit ("privacy")], "listPrivacy"⟩,
  ⟨"POST", [.lit ("privacy")], "createPrivacy"⟩,
  ⟨"GET", [.lit ("privacy"), .param ("id")], "getPrivacy"⟩,
  ⟨"PUT", [.lit ("privacy"), .param ("id")], "updatePrivacy"⟩,
  ⟨"DELETE", [.lit ("privacy"), .param ("id")], "removePrivacy"⟩,
  ⟨"POST", [.lit ("privacy"), .param ("id"), .lit ("publish")], "publishPrivacy"⟩,
  ⟨"GET", [.lit ("topics")], "listTopics"⟩,
  ⟨"POST", [.lit ("topics")], "createTopic"⟩,
  ⟨"GET", [.lit ("topics"), .param ("id")], "getTopicById"⟩,
  ⟨"PUT", [.lit ("topics"), .param ("id")], "updateTopic"⟩,
  ⟨"DELETE", [.lit ("topics"), .param ("id")], "removeTopicById"⟩,
  ⟨"GET", [.lit ("topics"), .lit ("subcategory"), .param ("subcategoryId")], "topicsBySubcategory"⟩,
  ⟨"GET", [.lit ("topics"), .lit ("category"), .param ("categoryId")], "topicsByCategory"⟩,
  ⟨"DELETE", [.lit ("topics"), .lit ("bulk-delete")], "bulkDeleteTopics"⟩,
  ⟨"GET", [.lit ("topics"), .lit ("search")], "searchTopics"⟩,
  ⟨"GET", [.lit ("topics"), .lit ("list")], "listTopicsSimple"⟩,
  ⟨"GET", [.lit ("topics"), .lit ("count")], "countTopics"⟩,
  ⟨"GET", [.lit ("topics"), .lit ("published")], "publishedTopics"⟩,
  ⟨"GET", [.lit ("topics"), .lit ("draft")], "draftTopics"⟩,
  ⟨"GET", [.lit ("topics"), .lit ("featured")], "featuredTopics"⟩,
  ⟨"GET", [.lit ("topics"), .lit ("free")], "freeTopics"⟩,
  ⟨"GET", [.lit ("topics"), .lit ("paid")], "paidTopics"⟩,
  ⟨"GET", [.lit ("topics"), .lit ("difficulty"), .param ("difficulty")], "topicsByDifficulty"⟩,
  ⟨"GET", [.lit ("topics"), .lit ("tag"), .param ("tag")], "topicsByTag"⟩,
  ⟨"POST", [.lit ("topics"), .param ("id"), .lit ("toggle-status")], "toggleTopicStatus"⟩,
  ⟨"POST", [.lit ("topics"), .param ("id"), .lit ("toggle-featured")], "toggleTopicFeatured"⟩,
  ⟨"POST", [.lit ("topics"), .param ("id"), .lit ("duplicate")], "duplicateTopicRoute"⟩,
  ⟨"POST", [.lit ("topics"), .param ("id"), .lit ("publish")], "publishTopicRoute"⟩,
  ⟨"POST", [.lit ("topics"), .param ("id"), .lit ("archive")], "archiveTopicRoute"⟩,
  ⟨"GET", [.lit ("topics"), .lit ("export")], "exportTopics"⟩,
  ⟨"POST", [.lit ("topics"), .lit ("import")], "importTopics"⟩,
  ⟨"GET", [.lit ("topics"), .param ("topicId"), .lit ("modules")], "listModules"⟩,
  ⟨"POST", [.lit ("topics"), .param ("topicId"), .lit ("modules")], "createModule"⟩,
  ⟨"GET", [.lit ("topics"), .param ("topicId"), .lit ("modules"), .param ("moduleId")], "getModule"⟩,
  ⟨"PUT", [.lit ("topics"), .param ("topicId"), .lit ("modules"), .param ("moduleId")], "updateModule"⟩,
  ⟨"DELETE", [.lit ("topics"), .param ("topicId"), .lit ("modules"), .param ("moduleId")], "removeModule"⟩,
  ⟨"POST", [.lit ("topics"), .param ("topicId"), .lit ("modules"), .lit ("reorder")], "reorderModules"⟩,
  ⟨"GET", [.lit ("topics"), .param ("topicId"), .lit ("modules"), .param ("moduleId"), .lit ("videos")], "listVideos"⟩,
  ⟨"POST", [.lit ("topics"), .param ("topicId"), .lit ("modules"), .param ("moduleId"), .lit ("videos")], "createVideo"⟩,
  ⟨"GET", [.lit ("topics"), .param ("topicId"), .lit ("modules"), .param ("moduleId"), .lit ("videos"), .param ("videoId")], "getVideo"⟩,
  ⟨"PUT", [.lit ("topics"), .param ("topicId"), .lit ("modules"), .param ("moduleId"), .lit ("videos"), .param ("videoId")], "updateVideo"⟩,
  ⟨"DELETE", [.lit ("topics"), .param ("topicId"), .lit ("modules"), .param ("moduleId"), .lit ("videos"), .param ("videoId")], "removeVideo"⟩,
  ⟨"POST", [.lit ("topics"), .param ("topicId"), .lit ("modules"), .param ("moduleId"), .lit ("videos"), .lit ("upload")], "uploadVideoRoute"⟩,
  ⟨"POST", [.lit ("topics"), .param ("topicId"), .lit ("modules"), .param ("moduleId"), .lit ("videos"), .lit ("upload-multiple")], "uploadMultipleVideos"⟩,
  ⟨"POST", [.lit ("topics"), .param ("topicId"), .lit ("modules"), .param ("moduleId"), .lit ("videos"), .lit ("reorder")], "reorderVideos"⟩]

/-! ## Nested reconciliation of PUT /api/topics/:id (topics.js lines 881-1318) -/

/-- Test of a string prefix (JavaScript `String.prototype.startsWith`). -/
def strStartsWith (s p : String) : Bool :=
  p.data.isPrefixOf s.data

/-- One video entry of the PUT payload. -/
structure VideoPayload where
  id : Option JsVal
  title : Option String
  description : Option String
  videoUrl : Option String
  duration : Option Int
  order : Option Int
deriving DecidableEq, Repr

/-- One module entry of the PUT payload.  A `videos` value that is present
but not an array behaves like an absent one in the handler
(`moduleData.videos && Array.isArray(moduleData.videos)`), so `none` covers
both. -/
structure ModulePayload where
  id : Option JsVal
  title : Option String
  description : Option String
  order : Option Int
  videos : Option (List VideoPayload)
deriving DecidableEq, Repr

/-- How the handler classifies an id field. -/
inductive IdClass where
  | isNew
  | isOld (raw : JsVal) (parsed : Int)
  | isSkip
deriving DecidableEq, Repr

/-- Branch classification from topics.js lines 1037/1100 (moduleData.id)
and 1131/1172 (videoData.id): a truthy string with the `new-` prefix is a
new entry; otherwise a truthy value whose `parseInt` is not NaN is an
existing entry, carrying both the raw value (bound into the SQL statement)
and the parsed number (used for the indexOf/splice bookkeeping); anything
else - id absent, empty string, zero, or a string with no digit prefix -
falls through both branches and the entry is skipped. -/
def classifyId : Option JsVal → IdClass
  | none => .isSkip
  | some (.str s) =>
      if s ≠ "" && strStartsWith s ("new-") then .isNew
      else if s ≠ "" then
        match jsParseIntStr s with
        | some k => .isOld (.str s) k
        | none => .isSkip
      else .isSkip
  | some (.num n) => if n ≠ 0 then .isOld (.num n) n else .isSkip

/-- `videoData.duration ? parseInt(videoData.duration) * 60 : 0`
(topics.js lines 1058, 1133, 1174). -/
def payloadDurationSeconds (d : Option Int) : Int :=
  match d with
  | some x => if x = 0 then 0 else x * 60
  | none => 0

/-- INSERT INTO topic_modules (topics.js lines 1039-1051); duration starts
at 0, the SERIAL sequence supplies the id. -/
def insertModuleRow (db : Db) (tid : Int) (m : ModulePayload) (idx : Nat) : Db :=
  let row : ModuleRow :=
    ⟨db.nextModuleId, tid, jsOrStr m.title ("Untitled Module"), jsOrStr m.description "",
      jsOrInt m.order ((idx : Int) + 1), 0⟩
  { db with modules := db.modules ++ [row], nextModuleId := db.nextModuleId + 1 }

/-- Success effect of INSERT INTO topic_videos (topics.js lines 1061-1075
and 1136-1150): the appended row and the SERIAL bump. -/
def insertVideoRow (db : Db) (tid mid : Int) (v : VideoPayload) (idx : Nat) : Db :=
  let row : VideoRow :=
    ⟨db.nextVideoId, tid, mid, jsOrStr v.title ("Untitled Video"), jsOrStr v.description "",
      jsOrStr v.videoUrl "", payloadDurationSeconds v.duration, jsOrInt v.order ((idx : Int) + 1)⟩
  { db with videos := db.videos ++ [row], nextVideoId := db.nextVideoId + 1 }

/-- The INSERT INTO topic_videos statement itself: the schema declares
`module_id` REFERENCES topic_modules(id), so when no module row carries
the bound id the statement raises a foreign-key violation, which aborts
the enclosing transaction. -/
def pgInsertVideo (db : Db) (tid mid : Int) (v : VideoPayload) (idx : Nat) :
    Except String Db :=
  if db.modules.any (fun m => m.id = mid) then .ok (insertVideoRow db tid mid v idx)
  else .error ("violates foreign key constraint topic_videos_module_id_fkey")

/-- Row transformation of the module UPDATE (topics.js lines 1102-1112):
WHERE id = $4 AND topic_id = $5; title, description and order_index change,
the duration column does not. -/
def updModFn (mid tid : Int) (m : ModulePayload) (idx : Nat) (r : ModuleRow) : ModuleRow :=
  if r.id = mid ∧ r.topicId = tid then
    { r with
        title := jsOrStr m.title ("Untitled Module")
        description := jsOrStr m.description ""
        orderIndex := jsOrInt m.order ((idx : Int) + 1) }
  else r

/-- UPDATE topic_modules ... WHERE id = $4 AND topic_id = $5. -/
def updateModuleRow (db : Db) (mid tid : Int) (m : ModulePayload) (idx : Nat) : Db :=
  { db with modules := db.modules.map (updModFn mid tid m idx) }

/-- Row transformation of the video UPDATE (topics.js lines 1175-1189):
WHERE id = $8 AND module_id = $9. -/
def updVidFn (vid mid : Int) (v : VideoPayload) (idx : Nat) (r : VideoRow) : VideoRow :=
  if r.id = vid ∧ r.moduleId = mid then
    { r with
        title := jsOrStr v.title ("Untitled Video")
        description := jsOrStr v.description ""
        videoUrl := jsOrStr v.videoUrl ""
        durationSeconds := payloadDurationSeconds v.duration
        orderIndex := jsOrInt v.order ((idx : Int) + 1) }
  else r

/-- UPDATE topic_videos ... WHERE id = $8 AND module_id = $9. -/
def updateVideoRow (db : Db) (vid mid : Int) (v : VideoPayload) (idx : Nat) : Db :=
  { db with videos := db.videos.map (updVidFn vid mid v idx) }

/-- The video loop inside the new-module branch (topics.js lines
1054-1098): only entries that are themselves tagged `new-` are inserted;
every other entry is ignored. -/
def insertNewVideos (tid mid : Int) : Nat → List VideoPayload → Db → Except String Db
  | _, [], db => .ok db
  | idx, v :: rest, db =>
    match classifyId v.id with
    | .isNew =>
        match pgInsertVideo db tid mid v idx with
        | .error e => .error e
        | .ok db1 => insertNewVideos tid mid (idx + 1) rest db1
    | _ => insertNewVideos tid mid (idx + 1) rest db

/-- The video loop inside the existing-module branch (topics.js lines
1130-1217): `new-` entries insert, numeric entries update (binding the raw
id into the SQL, a failing cast aborts the transaction) and splice their
parsed id out of the leftover list, anything else is skipped. -/
def reconcileVideos (tid mid : Int) : Nat → List VideoPayload → Db → List Int →
    Except String (Db × List Int)
  | _, [], db, rem => .ok (db, rem)
  | idx, v :: rest, db, rem =>
    match classifyId v.id with
    | .isNew =>
        match pgInsertVideo db tid mid v idx with
        | .error e => .error e
        | .ok db1 => reconcileVideos tid mid (idx + 1) rest db1 rem
    | .isOld raw parsed =>
        match sqlInt raw with
        | .error e => .error e
        | .ok vid =>
            reconcileVideos tid mid (idx + 1) rest (updateVideoRow db vid mid v idx)
              (rem.erase parsed)
    | .isSkip => reconcileVideos tid mid (idx + 1) rest db rem

/-- The module loop of the reconciliation (topics.js lines 1034-1225). -/
def reconcileModulesGo (tid : Int) : Nat → List ModulePayload → Db → List Int →
    Except String (Db × List Int)
  | _, [], db, rem => .ok (db, rem)
  | idx, m :: rest, db, rem =>
    match classifyId m.id with
    | .isNew =>
        let mid := db.nextModuleId
        let db1 := insertModuleRow db tid m idx
        match m.videos with
        | some vs =>
            match insertNewVideos tid mid 0 vs db1 with
            | .error e => .error e
            | .ok db2 => reconcileModulesGo tid (idx + 1) rest db2 rem
        | none => reconcileModulesGo tid (idx + 1) rest db1 rem
    | .isOld raw parsed =>
        match sqlInt raw with
        | .error e => .error e
        | .ok mid =>
            let db1 := updateModuleRow db mid tid m idx
            let rem1 := rem.erase parsed
            match m.videos with
            | some vs =>
                match reconcileVideos tid mid 0 vs db1
                    ((db1.videos.filter (fun v => v.moduleId = mid)).map (fun v => v.id)) with
                | .error e => .error e
                | .ok res =>
                    reconcileModulesGo tid (idx + 1) rest
                      { res.1 with videos := res.1.videos.filter (fun v => v.id ∉ res.2) } rem1
            | none => reconcileModulesGo tid (idx + 1) rest db1 rem1
    | .isSkip => reconcileModulesGo tid (idx + 1) rest db rem

/-- The whole modules transaction (topics.js lines 1021-1239): collect the
topic's module ids, run the loop, then delete every leftover module by id;
`topic_videos.module_id` is declared ON DELETE CASCADE in the schema, so
the deleted modules' videos disappear with them. -/
def reconcileModules (tid : Int) (payload : List ModulePayload) (db : Db) :
    Except String Db :=
  match reconcileModulesGo tid 0 payload db
      ((db.modules.filter (fun m => m.topicId = tid)).map (fun m => m.id)) with
  | .error e => .error e
  | .ok res =>
      .ok { res.1 with
              modules := res.1.modules.filter (fun m => m.id ∉ res.2)
              videos := res.1.videos.filter (fun v => v.moduleId ∉ res.2) }

/-- Scalar portion of the PUT /api/topics/:id body.  The dynamic
camelCase-to-column mapping (lines 926-998) is represented by the two
allow-listed columns the claims touch; `modules` maps to the column name
`modules`, which is not in allowedFields (lines 919-924), so a body whose
only key is `modules` produces an empty UPDATE list. -/
structure TopicUpdateBody where
  description : Option String
  status : Option String
  modules : Option (List ModulePayload)
deriving DecidableEq, Repr

/-- Whether the body contributes at least one allow-listed column. -/
def topicUpdateHasField (b : TopicUpdateBody) : Bool :=
  b.description.isSome || b.status.isSome

/-- The scalar UPDATE applied to the topic row. -/
def applyTopicScalarUpdate (b : TopicUpdateBody) (r : TopicRow) : TopicRow :=
  { r with
      description := b.description.getD r.description
      status := b.status.getD r.status }

/-- PUT /api/topics/:id (topics.js lines 881-1318): existence check, then
the 400 guard for an empty UPDATE list, then the scalar UPDATE - executed
on the pool and therefore committed at once - and only then, when the body
carries a modules array, the BEGIN/COMMIT transaction around the child
reconciliation; its failure rolls the children back (ROLLBACK) and answers
500, leaving the already-committed scalar update in place. -/
def putTopic (db : Db) (tid : Int) (b : TopicUpdateBody) : Nat × Db :=
  if db.topics.all (fun r => r.id ≠ tid) then (404, db)
  else if ¬ topicUpdateHasField b then (400, db)
  else
    let db1 := { db with topics := db.topics.map (fun r =>
      if r.id = tid then applyTopicScalarUpdate b r else r) }
    match b.modules with
    | some payload =>
        match reconcileModules tid payload db1 with
        | .ok db2 => (200, db2)
        | .error _ => (500, db1)
    | none => (200, db1)

/-- Well-formedness the SERIAL sequences and primary keys guarantee:
distinct ids, and every id (and video foreign key) below its sequence. -/
def Db.Wf (db : Db) : Prop :=
  (db.modules.map (fun m => m.id)).Nodup ∧
  (db.videos.map (fun v => v.id)).Nodup ∧
  (∀ m ∈ db.modules, m.id < db.nextModuleId) ∧
  (∀ v ∈ db.videos, v.id < db.nextVideoId) ∧
  (∀ v ∈ db.videos, v.moduleId < db.nextModuleId)

/-- The numeric module ids named by a payload (parsed values of the
existing-module entries). -/
def modOldIds (ps : List ModulePayload) : List Int :=
  ps.filterMap (fun m => match classifyId m.id with | .isOld _ k => some k | _ => none)

/-- The numeric video ids named by a module entry's videos array. -/
def vidOldIds (vs : List VideoPayload) : List Int :=
  vs.filterMap (fun v => match classifyId v.id with | .isOld _ k => some k | _ => none)

/-- Whether a classification is the new-entry branch. -/
def IdClass.isNewb (c : IdClass) : Bool :=
  match c with | .isNew => true | _ => false

/-- Every existing-video entry's raw id binds cleanly to its parsed value. -/
def SqlOkVid (vs : List VideoPayload) : Prop :=
  ∀ v ∈ vs, ∀ raw k, classifyId v.id = .isOld raw k → sqlInt raw = .ok k

/-- Every existing-module entry's raw id binds cleanly, and so do its
videos' ids. -/
def SqlOkPayload (ps : List ModulePayload) : Prop :=
  ∀ m ∈ ps, (∀ raw k, classifyId m.id = .isOld raw k → sqlInt raw = .ok k) ∧
    (∀ vs, m.videos = some vs → SqlOkVid vs)

/-- Order-or-position fallback of a payload entry at 0-based position j
shifted by the enumeration start. -/
def orderAt (o : Option Int) (idx j : Nat) : Int :=
  jsOrInt o ((idx : Int) + (j : Int) + 1)

/-- Executable check that every existing-video entry of an array binds
cleanly. -/
def sqlOkVidB (vs : List VideoPayload) : Bool :=
  vs.all (fun v =>
    match classifyId v.id with
    | .isOld raw k =>
        (match sqlInt raw with
         | .ok k2 => k2 == k
         | .error _ => false)
    | _ => true)

/-- Executable check that every existing-module entry and all its videos
bind cleanly. -/
def sqlOkPayloadB (ps : List ModulePayload) : Bool :=
  ps.all (fun m =>
    (match classifyId m.id with
     | .isOld raw k =>
         (match sqlInt raw with
          | .ok k2 => k2 == k
          | .error _ => false)
     | _ => true)
    && (match m.videos with
        | some vs => sqlOkVidB vs
        | none => true))

/-- Executable bound check on the video ids a payload names. -/
def vidBoundB (ps : List ModulePayload) (n : Int) : Bool :=
  ps.all (fun u =>
    match u.videos with
    | some vs => (vidOldIds vs).all (fun k => decide (k < n))
    | none => true)

/-- Example state for the full-replace claim: one topic with one stale
module that the payload does not name. -/
def c1Db : Db :=
  { topics := [⟨1, "T", "t", "draft", none, "", 0⟩]
    modules := [⟨7, 1, "Stale", "", 1, 0⟩]
    videos := []
    nextModuleId := 8
    nextVideoId := 1 }

/-- A body whose only key is `modules`: no allow-listed column survives the
camelCase mapping, so the UPDATE list is empty. -/
def c1Body : TopicUpdateBody := ⟨none, none, some []⟩

/-- Witness state: topic 1 with a module to keep (id 5), a module the
payload does not name (id 6), a foreign topic's module (id 9), and two
videos under module 5, one of which the payload does not name. -/
def c1WDb : Db :=
  { topics := [⟨1, "T", "t", "draft", none, "", 0⟩]
    modules := [⟨5, 1, "Keep", "", 1, 0⟩, ⟨6, 1, "Drop", "", 2, 0⟩, ⟨9, 2, "Other", "", 1, 0⟩]
    videos := [⟨100, 1, 5, "v", "", "", 60, 1⟩, ⟨101, 1, 5, "gone", "", "", 30, 2⟩]
    nextModuleId := 10
    nextVideoId := 200 }

/-- Witness payload: re-name module 5 (keeping video 100 and adding a
placeholder video), and add a placeholder module. -/
def c1WPs : List ModulePayload :=
  [⟨some (.str "5"), some "Keep2", none, some 1,
      some [⟨some (.num 100), none, none, none, none, none⟩,
            ⟨some (.str "new-a"), some "NV", none, none, some 2, none⟩]⟩,
   ⟨some (.str "new-1"), some "Fresh", none, none, none⟩]

/-- Witness body: a scalar column plus the modules array. -/
def c1WBody : TopicUpdateBody := ⟨some "d", none, some c1WPs⟩

/-- Example state for the new-entry claim: one topic and no children. -/
def c2Db : Db :=
  { topics := [⟨1, "T", "t", "draft", none, "", 0⟩]
    modules := []
    videos := []
    nextModuleId := 1
    nextVideoId := 1 }

/-- A body with a scalar column and one module entry whose id is absent. -/
def c2Body : TopicUpdateBody :=
  ⟨some "d", none, some [⟨none, some "M", none, none, none⟩]⟩

/-- Witness state for the placeholder-insert claim: topic 1 with one
existing module and no videos. -/
def c2WDb : Db :=
  { topics := [⟨1, "T", "t", "draft", none, "", 0⟩]
    modules := [⟨5, 1, "Old", "", 1, 0⟩]
    videos := []
    nextModuleId := 6
    nextVideoId := 1 }

/-- Witness payload: a placeholder module with a placeholder video and an
explicit order, plus the existing module re-named with a placeholder video
without an order. -/
def c2WPs : List ModulePayload :=
  [⟨some (.str "new-1"), some "Fresh", none, some 7,
      some [⟨some (.str "new-v"), some "NV", none, none, some 3, some 9⟩]⟩,
   ⟨some (.str "5"), some "Old2", none, none,
      some [⟨some (.str "new-w"), none, none, none, none, none⟩]⟩]

/-- Witness body for the placeholder-insert claim. -/
def c2WBody : TopicUpdateBody := ⟨some "d", none, some c2WPs⟩

/-- Witness state: topic 1 with one module already persisted. -/
def c4WDb : Db :=
  { topics := [⟨1, "T", "t", "draft", none, "", 0⟩]
    modules := [⟨5, 1, "M", "", 1, 0⟩]
    videos := []
    nextModuleId := 6
    nextVideoId := 1 }

/-- Witness payload: a placeholder entry that inserts inside the
transaction, then an entry whose id `12abc` passes the JavaScript NaN
check (parseInt reads the 12 prefix) but fails the strict integer cast
when bound as a SQL parameter, aborting the transaction. -/
def c4WPs : List ModulePayload :=
  [⟨some (.str "new-1"), some "Fresh", none, none, none⟩,
   ⟨some (.str "12abc"), some "Bad", none, none, none⟩]

/-- Witness body for the rollback claim. -/
def c4WBody : TopicUpdateBody := ⟨some "d", none, some c4WPs⟩

/-- State for the foreign-key path: topic 1 has only module 5, so the id 4
binds cleanly but names no row. -/
def fkDb : Db :=
  { topics := [⟨1, "T", "t", "draft", none, "", 0⟩]
    modules := [⟨5, 1, "M", "", 1, 0⟩]
    videos := []
    nextModuleId := 6
    nextVideoId := 1 }

/-- A body naming the nonexistent module 4 with a placeholder video under
it: the module UPDATE matches no row (the handler ignores the row count)
and the video INSERT then violates the module_id foreign key. -/
def fkBody : TopicUpdateBody :=
  ⟨some "d", none, some [⟨some (.str "4"), none, none, none,
    some [⟨some (.str "new-v"), none, none, none, none, none⟩]⟩]⟩

/-! ## Theorems -/

/-- C10: for every PUT /api/categories/:id request that passes the id, name
and description validations and targets an existing category, if the body
omits `status` or supplies a value outside Active/Inactive/Draft, the stored
status of that category becomes the literal `Active`, regardless of its
previous value. -/
theorem put_category_defaults_status_to_active
    (cats : List CategoryRow) (idParam : String) (body : CategoryUpdateBody) (cid : Int)
    (hid : jsParseIntStr idParam = some cid) (hz : cid ≠ 0)
    (hn : reqStrOk body.name) (hd : reqStrOk body.description)
    (hex : ∃ c ∈ cats, c.id = cid)
    (hst : ∀ s, body.status = some s → s ∉ validStatuses) :
    (putCategory cats idParam body).1 = 200 ∧
    ∀ c ∈ (putCategory cats idParam body).2, c.id = cid → c.status = "Active" := by
  obtain ⟨c0, hc0, hc0id⟩ := hex
  have hall : ¬ ((cats.all (fun c => c.id ≠ cid)) = true) := by
    simp only [List.all_eq_true, decide_eq_true_eq]
    intro h
    exact h c0 hc0 hc0id
  have hstat : catStatusOf body.status = "Active" := by
    unfold catStatusOf
    cases hb : body.status with
    | none => rfl
    | some st =>
      have hmem : st ∉ validStatuses := hst st hb
      simp [hmem]
  have hres : putCategory cats idParam body =
      (200, cats.map (fun c =>
        if c.id = cid then
          { c with
            name := jsTrim (jsOrStr body.name "")
            description := jsTrim (jsOrStr body.description "")
            status := catStatusOf body.status }
        else c)) := by
    unfold putCategory
    rw [hid]
    dsimp only
    rw [if_neg hz, if_neg (not_not_intro hn), if_neg (not_not_intro hd), if_neg hall]
  rw [hres]
  refine ⟨rfl, ?_⟩
  intro c hc hcid
  simp only [List.mem_map] at hc
  obtain ⟨c1, hc1, hceq⟩ := hc
  by_cases h1 : c1.id = cid
  · rw [← hceq]
    simp [h1, hstat]
  · rw [← hceq] at hcid
    simp only [if_neg h1] at hcid
    exact absurd hcid h1

/-- C10 witness: an existing category with status Draft, updated with a body
that omits status, ends up with status Active. -/
theorem put_category_defaults_status_to_active_witness :
    (putCategory [⟨7, "Net", "Desc", "Draft"⟩] ("7")
        ⟨some ("NewName"), some ("NewDesc"), none⟩).1 = 200 ∧
    ∀ c ∈ (putCategory [⟨7, "Net", "Desc", "Draft"⟩] ("7")
        ⟨some ("NewName"), some ("NewDesc"), none⟩).2, c.id = 7 → c.status = "Active" :=
  put_category_defaults_status_to_active
    [⟨7, "Net", "Desc", "Draft"⟩] ("7") ⟨some ("NewName"), some ("NewDesc"), none⟩ 7
    (by decide) (by decide) (by decide) (by decide)
    ⟨⟨7, "Net", "Desc", "Draft"⟩, by simp, rfl⟩
    (by intro s h; cases h)

/-- C7: a DELETE /api/categories/:id request on an existing category that
still has at least one subcategory row answers 400 and leaves the category
table unchanged; and whenever the handler does change the table, the
category's subcategory count was zero. -/
theorem delete_category_guard (cats : List CategoryRow) (subs : List SubcategoryRow)
    (idParam : String) :
    (∀ cid, jsParseIntStr idParam = some cid →
      (∃ c ∈ cats, c.id = cid) →
      1 ≤ (subs.filter (fun s => s.categoryId = cid)).length →
      deleteCategory cats subs idParam = (400, cats)) ∧
    ((deleteCategory cats subs idParam).2 ≠ cats →
      ∀ cid, jsParseIntStr idParam = some cid →
        (subs.filter (fun s => s.categoryId = cid)).length = 0) := by
  constructor
  · intro cid hid hex hsub
    unfold deleteCategory
    rw [hid]
    dsimp only
    by_cases hz : cid = 0
    · rw [if_pos hz]
    · rw [if_neg hz]
      have hall : ¬ ((cats.all (fun c => c.id ≠ cid)) = true) := by
        obtain ⟨c0, hc0, hc0id⟩ := hex
        simp only [List.all_eq_true, decide_eq_true_eq]
        intro h
        exact h c0 hc0 hc0id
      rw [if_neg hall, if_pos (by omega)]
  · intro hch cid hid
    unfold deleteCategory at hch
    rw [hid] at hch
    dsimp only at hch
    by_cases hz : cid = 0
    · rw [if_pos hz] at hch
      exact absurd rfl hch
    · rw [if_neg hz] at hch
      by_cases hall : ((cats.all (fun c => c.id ≠ cid)) = true)
      · rw [if_pos hall] at hch
        exact absurd rfl hch
      · rw [if_neg hall] at hch
        by_cases hsub : (subs.filter (fun s => s.categoryId = cid)).length > 0
        · rw [if_pos hsub] at hch
          exact absurd rfl hch
        · omega

/-- C7 witness: deleting category 1, which has one subcategory, returns 400
and leaves the table as it was. -/
theorem delete_category_guard_witness :
    deleteCategory [⟨1, "Cat", "D", "Active"⟩] [⟨2, "Sub", 1⟩] ("1") =
      (400, [⟨1, "Cat", "D", "Active"⟩]) :=
  (delete_category_guard [⟨1, "Cat", "D", "Active"⟩] [⟨2, "Sub", 1⟩] ("1")).1 1
    (by decide) ⟨⟨1, "Cat", "D", "Active"⟩, by simp, rfl⟩ (by decide)

/-- Reading the digit list of `decAux` back yields the number. -/
theorem decAux_foldr (fuel : Nat) : ∀ n, n < fuel →
    (decAux fuel n).foldr (fun d a => d + 10 * a) 0 = n := by
  induction fuel with
  | zero => intro n h; omega
  | succ fuel ih =>
    intro n h
    by_cases hz : n = 0
    · simp [decAux, hz]
    · have hlt : n / 10 < n := Nat.div_lt_self (by omega) (by omega)
      have : (decAux fuel (n / 10)).foldr (fun d a => d + 10 * a) 0 = n / 10 :=
        ih (n / 10) (by omega)
      simp only [decAux, hz, if_false, List.foldr_cons, this]
      omega

/-- Every digit produced by `decAux` is below 10. -/
theorem decAux_lt_ten (fuel : Nat) : ∀ n d, d ∈ decAux fuel n → d < 10 := by
  induction fuel with
  | zero => intro n d h; simp [decAux] at h
  | succ fuel ih =>
    intro n d h
    by_cases hz : n = 0
    · simp [decAux, hz] at h
    · simp only [decAux, hz, if_false, List.mem_cons] at h
      rcases h with h | h
      · omega
      · exact ih (n / 10) d h

/-- The digit-to-character map is injective on decimal digits. -/
theorem digitChar_inj (d1 d2 : Nat) (h1 : d1 < 10) (h2 : d2 < 10)
    (h : Char.ofNat (48 + d1) = Char.ofNat (48 + d2)) : d1 = d2 := by
  interval_cases d1 <;> interval_cases d2 <;> first
    | rfl
    | exact absurd h (by decide)

/-- Mapping decimal digits to characters is injective on digit lists. -/
theorem mapDigitChar_inj : ∀ l1 l2 : List Nat, (∀ d ∈ l1, d < 10) → (∀ d ∈ l2, d < 10) →
    l1.map (fun d => Char.ofNat (48 + d)) = l2.map (fun d => Char.ofNat (48 + d)) →
    l1 = l2 := by
  intro l1
  induction l1 with
  | nil => intro l2 _ _ h; cases l2 with
    | nil => rfl
    | cons b bs => simp at h
  | cons a as ih =>
    intro l2 hb1 hb2 h
    cases l2 with
    | nil => simp at h
    | cons b bs =>
      simp only [List.map_cons, List.cons.injEq] at h
      have ha : a = b := digitChar_inj a b (hb1 a (by simp)) (hb2 b (by simp)) h.1
      have : as = bs := ih bs (fun d hd => hb1 d (by simp [hd])) (fun d hd => hb2 d (by simp [hd])) h.2
      rw [ha, this]

/-- Decimal printing of counters is injective. -/
theorem natToDec_inj (m n : Nat) (h : natToDec m = natToDec n) : m = n := by
  by_cases hm : m = 0 <;> by_cases hn : n = 0
  · omega
  · exfalso
    unfold natToDec at h
    rw [if_pos hm, if_neg hn] at h
    have hdata : ("0").data = (⟨((decAux (n + 1) n).map (fun d => Char.ofNat (48 + d))).reverse⟩ : String).data :=
      congrArg String.data h
    have hrev : ['0'] = ((decAux (n + 1) n).map (fun d => Char.ofNat (48 + d))).reverse := hdata
    have hdigs : (decAux (n + 1) n).map (fun d => Char.ofNat (48 + d)) = ['0'] := by
      have h2 := congrArg List.reverse hrev
      simpa using h2.symm
    have hzero : decAux (n + 1) n = [0] := by
      have h0 : ([0] : List Nat).map (fun d => Char.ofNat (48 + d)) = ['0'] := by decide
      exact mapDigitChar_inj _ [0] (decAux_lt_ten _ _) (by intro d hd; simp at hd; omega)
        (by rw [hdigs, h0])
    have hfold := decAux_foldr (n + 1) n (by omega)
    rw [hzero] at hfold
    simp at hfold
    omega
  · exfalso
    unfold natToDec at h
    rw [if_neg hm, if_pos hn] at h
    have hdata : (⟨((decAux (m + 1) m).map (fun d => Char.ofNat (48 + d))).reverse⟩ : String).data = ("0").data :=
      congrArg String.data h
    have hrev : ((decAux (m + 1) m).map (fun d => Char.ofNat (48 + d))).reverse = ['0'] := hdata
    have hdigs : (decAux (m + 1) m).map (fun d => Char.ofNat (48 + d)) = ['0'] := by
      have h2 := congrArg List.reverse hrev
      simpa using h2
    have hzero : decAux (m + 1) m = [0] := by
      have h0 : ([0] : List Nat).map (fun d => Char.ofNat (48 + d)) = ['0'] := by decide
      exact mapDigitChar_inj _ [0] (decAux_lt_ten _ _) (by intro d hd; simp at hd; omega)
        (by rw [hdigs, h0])
    have hfold := decAux_foldr (m + 1) m (by omega)
    rw [hzero] at hfold
    simp at hfold
    omega
  · unfold natToDec at h
    rw [if_neg hm, if_neg hn] at h
    have hdata := congrArg String.data h
    have hrev : ((decAux (m + 1) m).map (fun d => Char.ofNat (48 + d))).reverse =
        ((decAux (n + 1) n).map (fun d => Char.ofNat (48 + d))).reverse := hdata
    have hmap : (decAux (m + 1) m).map (fun d => Char.ofNat (48 + d)) =
        (decAux (n + 1) n).map (fun d => Char.ofNat (48 + d)) := by
      have := congrArg List.reverse hrev
      simpa using this
    have hd : decAux (m + 1) m = decAux (n + 1) n :=
      mapDigitChar_inj _ _ (decAux_lt_ten _ _) (decAux_lt_ten _ _) hmap
    have h1 := decAux_foldr (m + 1) m (by omega)
    have h2 := decAux_foldr (n + 1) n (by omega)
    rw [hd] at h1
    omega

/-- String append acts as list append on the character data. -/
theorem string_data_append (a b : String) : (a ++ b).data = a.data ++ b.data := by
  cases a
  cases b
  rfl

/-- The candidate sequence never repeats. -/
theorem slugCandidate_inj (base : String) (j k : Nat)
    (h : slugCandidate base j = slugCandidate base k) : j = k := by
  cases j with
  | zero =>
    cases k with
    | zero => rfl
    | succ k =>
      exfalso
      have hl := congrArg String.length h
      simp only [slugCandidate, String.length_append] at hl
      have : 0 < (natToDec (k + 1)).length := by
        unfold natToDec
        rw [if_neg (by omega)]
        have hne : decAux (k + 2) (k + 1) ≠ [] := by
          simp [decAux]
        have : 0 < (decAux (k + 2) (k + 1)).length := List.length_pos.mpr hne
        simpa [String.length] using by
          simpa using this
      have hsep : ("-").length = 1 := rfl
      omega
  | succ j =>
    cases k with
    | zero =>
      exfalso
      have hl := congrArg String.length h
      simp only [slugCandidate, String.length_append] at hl
      have : 0 < (natToDec (j + 1)).length := by
        unfold natToDec
        rw [if_neg (by omega)]
        have hne : decAux (j + 2) (j + 1) ≠ [] := by
          simp [decAux]
        have : 0 < (decAux (j + 2) (j + 1)).length := List.length_pos.mpr hne
        simpa [String.length] using by
          simpa using this
      have hsep : ("-").length = 1 := rfl
      omega
    | succ k =>
      have hdata := congrArg String.data h
      simp only [slugCandidate, string_data_append] at hdata
      have h1 : (natToDec (j + 1)).data = (natToDec (k + 1)).data :=
        List.append_cancel_left hdata
      have heq : natToDec (j + 1) = natToDec (k + 1) := congrArg String.mk h1
      have := natToDec_inj _ _ heq
      omega

/-- Whatever the search returns is not an existing slug. -/
theorem slugSearch_not_mem (existing : List String) (base : String) :
    ∀ fuel k s, slugSearch existing base fuel k = some s → s ∉ existing := by
  intro fuel
  induction fuel with
  | zero => intro k s h; simp [slugSearch] at h
  | succ fuel ih =>
    intro k s h
    unfold slugSearch at h
    by_cases hmem : slugCandidate base k ∈ existing
    · rw [if_pos hmem] at h
      exact ih (k + 1) s h
    · rw [if_neg hmem] at h
      cases h
      exact hmem

/-- The search succeeds as soon as some candidate within range is free. -/
theorem slugSearch_some (existing : List String) (base : String) :
    ∀ fuel k, (∃ j, j < fuel ∧ slugCandidate base (k + j) ∉ existing) →
    (slugSearch existing base fuel k).isSome := by
  intro fuel
  induction fuel with
  | zero => intro k ⟨j, hj, _⟩; omega
  | succ fuel ih =>
    intro k ⟨j, hj, hfree⟩
    unfold slugSearch
    by_cases hmem : slugCandidate base k ∈ existing
    · rw [if_pos hmem]
      apply ih
      cases j with
      | zero => exact absurd hmem (by simpa using hfree)
      | succ j =>
        exact ⟨j, by omega, by
          have : k + 1 + j = k + (j + 1) := by omega
          rw [this]
          exact hfree⟩
    · rw [if_neg hmem]
      rfl

/-- Pigeonhole: among the first `existing.length + 1` candidates one is free. -/
theorem exists_free_candidate (existing : List String) (base : String) :
    ∃ j, j < existing.length + 1 ∧ slugCandidate base j ∉ existing := by
  by_contra hcon
  push_neg at hcon
  have hsub : (Finset.range (existing.length + 1)).image (slugCandidate base) ⊆
      existing.toFinset := by
    intro s hs
    simp only [Finset.mem_image, Finset.mem_range] at hs
    obtain ⟨j, hj, rfl⟩ := hs
    exact List.mem_toFinset.mpr (hcon j hj)
  have hcard : ((Finset.range (existing.length + 1)).image (slugCandidate base)).card =
      existing.length + 1 := by
    rw [Finset.card_image_of_injOn (fun a _ b _ h => slugCandidate_inj base a b h)]
    exact Finset.card_range _
  have h1 := Finset.card_le_card hsub
  have h2 := List.toFinset_card_le existing
  omega

/-- The modelled uniqueness loop always terminates with a slug that is not
yet in the table. -/
theorem findUniqueSlug_total (existing : List String) (base : String) :
    ∃ s, findUniqueSlug existing base = some s ∧ s ∉ existing := by
  have hsome : (slugSearch existing base (existing.length + 1) 0).isSome := by
    apply slugSearch_some
    obtain ⟨j, hj, hfree⟩ := exists_free_candidate existing base
    exact ⟨j, hj, by simpa using hfree⟩
  cases hres : slugSearch existing base (existing.length + 1) 0 with
  | none => rw [hres] at hsome; simp at hsome
  | some s =>
    exact ⟨s, hres, slugSearch_not_mem existing base _ 0 s hres⟩

/-- One unfolding step of the uniqueness loop. -/
theorem slugSearch_succ (existing : List String) (base : String) (fuel k : Nat) :
    slugSearch existing base (fuel + 1) k =
      if slugCandidate base k ∈ existing then slugSearch existing base fuel (k + 1)
      else some (slugCandidate base k) := rfl

/-- C5: the slug allocator always returns a slug that is absent from the
topics table (so the stored slug is unique), and when the base slug derived
from a title is free it is used as-is, while a second topic with the very
same title (base now taken, base-1 free) receives base-1. -/
theorem slug_allocation_unique_and_incremental (existing : List String) (title : String) :
    (∃ s, findUniqueSlug existing (generateSlug title) = some s ∧ s ∉ existing) ∧
    (generateSlug title ∉ existing →
      generateSlug title ++ "-" ++ natToDec 1 ∉ existing →
      findUniqueSlug existing (generateSlug title) = some (generateSlug title) ∧
      findUniqueSlug (generateSlug title :: existing) (generateSlug title) =
        some (generateSlug title ++ "-" ++ natToDec 1)) := by
  constructor
  · exact findUniqueSlug_total existing (generateSlug title)
  · intro h1 h2
    constructor
    · show slugSearch existing (generateSlug title) (existing.length + 1) 0 = _
      rw [slugSearch_succ]
      rw [if_neg (show ¬ slugCandidate (generateSlug title) 0 ∈ existing from h1)]
      rfl
    · show slugSearch (generateSlug title :: existing) (generateSlug title)
        ((generateSlug title :: existing).length + 1) 0 = _
      have hlen : (generateSlug title :: existing).length + 1 = (existing.length + 1) + 1 := by
        simp
      rw [hlen, slugSearch_succ]
      rw [if_pos (by exact List.mem_cons_self _ _)]
      rw [slugSearch_succ]
      rw [if_neg ?hfree]
      case hfree =>
        intro hmem
        rcases List.mem_cons.mp hmem with heq | hmem2
        · have : (1 : Nat) = 0 := slugCandidate_inj (generateSlug title) 1 0 heq
          omega
        · exact h2 hmem2
      rfl

/-- C5 witness: a concrete title; the first creation gets the base slug and
a second identical title gets base-1. -/
theorem slug_allocation_unique_and_incremental_witness :
    findUniqueSlug [] (generateSlug ("Intro to Hacking!")) = some ("intro-to-hacking") ∧
    findUniqueSlug [("intro-to-hacking")] (generateSlug ("Intro to Hacking!")) =
      some ("intro-to-hacking-1") := by
  have h := (slug_allocation_unique_and_incremental [] ("Intro to Hacking!")).2
    (by simp) (by simp)
  exact h

/-- C6: publishing a topic that is not yet published answers 200, sets its
status to published and stores a non-null published_at; publishing an
already-published topic answers 404 and leaves the whole table, including
published_at, exactly as it was. -/
theorem publish_topic_once (topics : List TopicRow) (tid : Int) (now : Int) :
    ((∃ r ∈ topics, r.id = tid ∧ r.status ≠ "published") →
      (publishTopic topics tid now).1 = 200 ∧
      ∀ r ∈ topics, r.id = tid → r.status ≠ "published" →
        { r with status := "published", publishedAt := some now } ∈
          (publishTopic topics tid now).2) ∧
    ((∃ r ∈ topics, r.id = tid) →
      (∀ r ∈ topics, r.id = tid → r.status = "published") →
      publishTopic topics tid now = (404, topics)) := by
  constructor
  · intro ⟨r0, hr0, hid0, hst0⟩
    have hne : ¬ (topics.filter (fun r => r.id = tid ∧ r.status ≠ "published")).isEmpty := by
      rw [List.isEmpty_iff_eq_nil]
      intro hnil
      have : r0 ∈ topics.filter (fun r => r.id = tid ∧ r.status ≠ "published") := by
        rw [List.mem_filter]
        exact ⟨hr0, by simp [hid0, hst0]⟩
      rw [hnil] at this
      cases this
    constructor
    · unfold publishTopic
      rw [if_neg hne]
    · intro r hr hid hst
      unfold publishTopic
      rw [if_neg hne]
      simp only
      rw [List.mem_map]
      exact ⟨r, hr, by rw [if_pos ⟨hid, hst⟩]⟩
  · intro ⟨r0, hr0, hid0⟩ hall
    have hempty : (topics.filter (fun r => r.id = tid ∧ r.status ≠ "published")).isEmpty := by
      rw [List.isEmpty_iff_eq_nil, List.filter_eq_nil]
      intro r hr
      simp only [decide_eq_true_eq, not_and, ne_eq, not_not]
      intro hid
      exact hall r hr hid
    have hmapid : topics.map (fun r =>
        if r.id = tid ∧ r.status ≠ "published" then
          { r with status := "published", publishedAt := some now }
        else r) = topics := by
      conv_rhs => rw [← List.map_id topics]
      apply List.map_congr_left
      intro r hr
      have : ¬ (r.id = tid ∧ r.status ≠ "published") := by
        intro ⟨hid, hst⟩
        exact hst (hall r hr hid)
      rw [if_neg this]
      rfl
    unfold publishTopic
    rw [if_pos hempty, hmapid]

/-- C6 witness: publishing a draft topic stores published with a timestamp;
re-publishing an already-published topic answers 404 and changes nothing. -/
theorem publish_topic_once_witness :
    ((publishTopic [⟨5, "T", "t", "draft", none, "", 0⟩] 5 100).1 = 200 ∧
      ({ (⟨5, "T", "t", "draft", none, "", 0⟩ : TopicRow) with
          status := "published", publishedAt := some 100 } ∈
        (publishTopic [⟨5, "T", "t", "draft", none, "", 0⟩] 5 100).2)) ∧
    publishTopic [⟨6, "T", "t", "published", some 7, "", 0⟩] 6 100 =
      (404, [⟨6, "T", "t", "published", some 7, "", 0⟩]) := by
  constructor
  · have h := (publish_topic_once [⟨5, "T", "t", "draft", none, "", 0⟩] 5 100).1
      ⟨⟨5, "T", "t", "draft", none, "", 0⟩, by simp, rfl, by decide⟩
    exact ⟨h.1, h.2 ⟨5, "T", "t", "draft", none, "", 0⟩ (by simp) rfl (by decide)⟩
  · exact (publish_topic_once [⟨6, "T", "t", "published", some 7, "", 0⟩] 6 100).2
      ⟨⟨6, "T", "t", "published", some 7, "", 0⟩, by simp, rfl⟩
      (by intro r hr hid; simp at hr; rw [hr])

/-- C9: duplicating any existing topic always answers 500 and inserts
nothing, because the INSERT references `$9`-`$17` (skipping `$8`) while
only 16 parameters are supplied, so the statement can never bind. -/
theorem duplicate_topic_always_fails (topics : List TopicRow) (nextTopicId tid : Int)
    (h : ∃ r ∈ topics, r.id = tid) :
    duplicateTopic topics nextTopicId tid = (500, topics) := by
  obtain ⟨r0, hr0, hid⟩ := h
  unfold duplicateTopic
  cases hfind : topics.find? (fun r => r.id = tid) with
  | none =>
    exfalso
    have := List.find?_eq_none.mp hfind r0 hr0
    simp [hid] at this
  | some r =>
    dsimp only
    cases hslug : findUniqueSlug (topics.map (fun t => t.slug)) (generateSlug (r.title ++ " (Copy)")) with
    | none => rfl
    | some s =>
      dsimp only
      rw [if_neg (by decide)]

/-- C9 witness: duplicating concrete topic 5 answers 500 and leaves the
table unchanged. -/
theorem duplicate_topic_always_fails_witness :
    duplicateTopic [⟨5, "T", "t", "draft", none, "", 0⟩] 99 5 =
      (500, [⟨5, "T", "t", "draft", none, "", 0⟩]) :=
  duplicate_topic_always_fails [⟨5, "T", "t", "draft", none, "", 0⟩] 99 5
    ⟨⟨5, "T", "t", "draft", none, "", 0⟩, by simp, rfl⟩

/-- C3 counterexample: starting from a consistent state, a successful JSON
POST of a 120-second video leaves the parent module's duration_minutes at 0,
so the claimed invariant does not hold after a JSON video insert - the JSON
CRUD video routes perform no duration recomputation. -/
theorem video_duration_claim_counterexample :
    durationInvariant dbDuration ∧
    (jsonInsertVideo dbDuration 1 10 ⟨some ("v"), none, none, 120, none⟩).1 = 201 ∧
    ¬ durationInvariant (jsonInsertVideo dbDuration 1 10 ⟨some ("v"), none, none, 120, none⟩).2 := by
  decide

/-- C3 as amended: the duration denormalization is recomputed by the upload
route - after a successful upload, every module row with the target id
carries the integer-divided sum of its videos' seconds and every topic row
with the target id the sum of its modules' minutes - while the JSON CRUD
video routes (insert, update, delete) leave the modules and topics tables
entirely unchanged, performing no recomputation. -/
theorem upload_recomputes_json_crud_does_not
    (db : Db) (tid mid : Int) (ub : VideoUploadBody) (fileUrl : String)
    (ht : reqStrOk ub.title)
    (htop : ∃ t ∈ db.topics, t.id = tid)
    (hmod : ∃ m ∈ db.modules, m.id = mid ∧ m.topicId = tid) :
    ((uploadVideo db tid mid ub fileUrl).1 = 200 ∧
      (∀ m ∈ ((uploadVideo db tid mid ub fileUrl).2).modules, m.id = mid →
        m.durationMinutes =
          (moduleVideoSeconds ((uploadVideo db tid mid ub fileUrl).2).videos mid).tdiv 60) ∧
      (∀ t ∈ ((uploadVideo db tid mid ub fileUrl).2).topics, t.id = tid →
        t.durationMinutes =
          topicModuleMinutes ((uploadVideo db tid mid ub fileUrl).2).modules tid)) ∧
    ((∀ b, ((jsonInsertVideo db tid mid b).2).modules = db.modules ∧
        ((jsonInsertVideo db tid mid b).2).topics = db.topics) ∧
      (∀ vid b, ((jsonUpdateVideo db mid vid b).2).modules = db.modules ∧
        ((jsonUpdateVideo db mid vid b).2).topics = db.topics) ∧
      (∀ vid, ((jsonDeleteVideo db mid vid).2).modules = db.modules ∧
        ((jsonDeleteVideo db mid vid).2).topics = db.topics)) := by
  have htall : ¬ ((db.topics.all (fun t => t.id ≠ tid)) = true) := by
    obtain ⟨t0, ht0, hid0⟩ := htop
    simp only [List.all_eq_true, decide_eq_true_eq]
    intro h
    exact h t0 ht0 hid0
  have hmall : ¬ ((db.modules.all (fun m => ¬(m.id = mid ∧ m.topicId = tid))) = true) := by
    obtain ⟨m0, hm0, hid0, htid0⟩ := hmod
    simp only [List.all_eq_true, decide_eq_true_eq]
    intro h
    exact h m0 hm0 ⟨hid0, htid0⟩
  constructor
  · have hres : uploadVideo db tid mid ub fileUrl =
        (200, recomputeTopicDuration (recomputeModuleDuration
          { db with
              videos := db.videos ++
                [⟨db.nextVideoId, tid, mid, jsTrim (jsOrStr ub.title ""),
                  jsTrim (jsOrStr ub.description ""), fileUrl,
                  (match ub.duration with
                    | some d => if d = 0 then 0 else d * 60
                    | none => 0), jsOrInt ub.order 1⟩]
              nextVideoId := db.nextVideoId + 1 } mid) tid) := by
      unfold uploadVideo
      rw [if_neg (not_not_intro ht), if_neg htall, if_neg hmall]
    rw [hres]
    refine ⟨rfl, ?_, ?_⟩
    · intro m hm hmid
      simp only [recomputeTopicDuration, recomputeModuleDuration, List.mem_map] at hm
      obtain ⟨m0, hm0, hmeq⟩ := hm
      by_cases h0 : m0.id = mid
      · rw [← hmeq]
        simp [h0, recomputeTopicDuration, recomputeModuleDuration]
      · rw [← hmeq] at hmid
        simp only [if_neg h0] at hmid
        exact absurd hmid h0
    · intro t htmem htid
      simp only [recomputeTopicDuration, recomputeModuleDuration, List.mem_map] at htmem
      obtain ⟨t0, ht0, hteq⟩ := htmem
      by_cases h0 : t0.id = tid
      · rw [← hteq]
        simp [h0, recomputeTopicDuration, recomputeModuleDuration]
      · rw [← hteq] at htid
        simp only [if_neg h0] at htid
        exact absurd htid h0
  · refine ⟨?_, ?_, ?_⟩
    · intro b
      refine ⟨?_, ?_⟩ <;> (unfold jsonInsertVideo; split_ifs <;> rfl)
    · intro vid b
      refine ⟨?_, ?_⟩ <;> (unfold jsonUpdateVideo; split_ifs <;> rfl)
    · intro vid
      refine ⟨?_, ?_⟩ <;> (unfold jsonDeleteVideo; split_ifs <;> rfl)

/-- C3 amended-claim witness at a concrete state: uploading a 2-minute video
into the consistent state yields module duration 2 and topic duration 2. -/
theorem upload_recomputes_json_crud_does_not_witness :
    ((uploadVideo dbDuration 1 10 ⟨some ("v"), none, some 2, none⟩ ("u")).1 = 200 ∧
      (∀ m ∈ ((uploadVideo dbDuration 1 10 ⟨some ("v"), none, some 2, none⟩ ("u")).2).modules,
        m.id = 10 →
        m.durationMinutes =
          (moduleVideoSeconds
            ((uploadVideo dbDuration 1 10 ⟨some ("v"), none, some 2, none⟩ ("u")).2).videos
            10).tdiv 60) ∧
      (∀ t ∈ ((uploadVideo dbDuration 1 10 ⟨some ("v"), none, some 2, none⟩ ("u")).2).topics,
        t.id = 1 →
        t.durationMinutes =
          topicModuleMinutes
            ((uploadVideo dbDuration 1 10 ⟨some ("v"), none, some 2, none⟩ ("u")).2).modules
            1)) ∧
    ((∀ b, ((jsonInsertVideo dbDuration 1 10 b).2).modules = dbDuration.modules ∧
        ((jsonInsertVideo dbDuration 1 10 b).2).topics = dbDuration.topics) ∧
      (∀ vid b, ((jsonUpdateVideo dbDuration 10 vid b).2).modules = dbDuration.modules ∧
        ((jsonUpdateVideo dbDuration 10 vid b).2).topics = dbDuration.topics) ∧
      (∀ vid, ((jsonDeleteVideo dbDuration 10 vid).2).modules = dbDuration.modules ∧
        ((jsonDeleteVideo dbDuration 10 vid).2).topics = dbDuration.topics)) :=
  upload_recomputes_json_crud_does_not dbDuration 1 10 ⟨some ("v"), none, some 2, none⟩ ("u")
    (by decide)
    ⟨⟨1, "T", "t", "draft", none, "", 0⟩, by decide, rfl⟩
    ⟨⟨10, 1, "M", "", 1, 0⟩, by decide, rfl, rfl⟩

/-- C8: every GET request to the literal /topics paths search, list, count,
published, draft, featured, free, paid and export is first-matched by the
GET /topics/:id route with the literal bound as `id`, and DELETE
/topics/bulk-delete is first-matched by DELETE /topics/:id likewise, even
though a dedicated route for each literal path is registered (later) in the
table - so those dedicated handlers are never reached. -/
theorem literal_topics_routes_shadowed :
    (∀ p ∈ [("search"), ("list"), ("count"), ("published"), ("draft"),
        ("featured"), ("free"), ("paid"), ("export")],
      firstMatch appRoutes ("GET") [("topics"), p] =
        some ⟨"GET", [.lit ("topics"), .param ("id")], "getTopicById"⟩ ∧
      routeBindings ⟨"GET", [.lit ("topics"), .param ("id")], "getTopicById"⟩
        [("topics"), p] = [(("id"), p)]) ∧
    (firstMatch appRoutes ("DELETE") [("topics"), ("bulk-delete")] =
      some ⟨"DELETE", [.lit ("topics"), .param ("id")], "removeTopicById"⟩ ∧
      routeBindings ⟨"DELETE", [.lit ("topics"), .param ("id")], "removeTopicById"⟩
        [("topics"), ("bulk-delete")] = [(("id"), ("bulk-delete"))]) ∧
    (∀ h ∈ [("searchTopics"), ("listTopicsSimple"), ("countTopics"),
        ("publishedTopics"), ("draftTopics"), ("featuredTopics"), ("freeTopics"),
        ("paidTopics"), ("exportTopics"), ("bulkDeleteTopics")],
      ∃ r ∈ appRoutes, r.handler = h) := by
  decide

/-- Effect of the new-module video loop: it only appends fresh video rows
of the given module, touching nothing else; each `new-` entry contributes
one row carrying the order-or-position index. -/
theorem insertNewVideos_spec (tid mid : Int) :
    ∀ (vs : List VideoPayload) (idx : Nat) (db : Db),
    (∃ m ∈ db.modules, m.id = mid) →
    ∃ db2, insertNewVideos tid mid idx vs db = .ok db2 ∧
    db2.topics = db.topics ∧
    db2.modules = db.modules ∧
    db2.nextModuleId = db.nextModuleId ∧
    db.nextVideoId ≤ db2.nextVideoId ∧
    ∃ news : List VideoRow,
      db2.videos = db.videos ++ news ∧
      (∀ w ∈ news, w.moduleId = mid ∧ w.topicId = tid ∧
        db.nextVideoId ≤ w.id ∧ w.id < db2.nextVideoId) ∧
      (news.map (fun w => w.id)).Nodup ∧
      (∀ (j : Nat) (v : VideoPayload), vs[j]? = some v → classifyId v.id = .isNew →
        ∃ w ∈ news, w.orderIndex = orderAt v.order idx j ∧
          w.title = jsOrStr v.title ("Untitled Video") ∧
          w.durationSeconds = payloadDurationSeconds v.duration) := by
  intro vs
  induction vs with
  | nil =>
    intro idx db _
    refine ⟨db, rfl, rfl, rfl, rfl, le_refl _, [], by simp, ?_, by simp, ?_⟩
    · intro w hw; cases hw
    · intro j v hj
      rw [List.getElem?_nil] at hj
      cases hj
  | cons v rest ih =>
    intro idx db hmd
    cases hc : classifyId v.id with
    | isNew =>
      have hfk : (db.modules.any (fun m => m.id = mid)) = true := by
        obtain ⟨m0, hm0, hid0⟩ := hmd
        exact List.any_eq_true.mpr ⟨m0, hm0, by simpa using hid0⟩
      have hstep : insertNewVideos tid mid idx (v :: rest) db =
          insertNewVideos tid mid (idx + 1) rest (insertVideoRow db tid mid v idx) := by
        simp only [insertNewVideos]
        rw [hc]
        dsimp only
        unfold pgInsertVideo
        rw [if_pos hfk]
      have hiv : (insertVideoRow db tid mid v idx).nextVideoId = db.nextVideoId + 1 := rfl
      have hmd1 : ∃ m ∈ (insertVideoRow db tid mid v idx).modules, m.id = mid := hmd
      obtain ⟨db2, hrun, h1, h2, h3, h4, news, hv, hfresh, hnd, hper⟩ :=
        ih (idx + 1) (insertVideoRow db tid mid v idx) hmd1
      refine ⟨db2, by rw [hstep]; exact hrun, h1, h2, h3, by omega, ?_⟩
      refine ⟨⟨db.nextVideoId, tid, mid, jsOrStr v.title ("Untitled Video"),
        jsOrStr v.description "", jsOrStr v.videoUrl "",
        payloadDurationSeconds v.duration, jsOrInt v.order ((idx : Int) + 1)⟩ :: news,
        ?_, ?_, ?_, ?_⟩
      · rw [hv]
        simp [insertVideoRow]
      · intro w hw
        rcases List.mem_cons.mp hw with rfl | hw2
        · refine ⟨rfl, rfl, le_refl _, ?_⟩
          show db.nextVideoId < _
          omega
        · obtain ⟨ha, hb, hcc, hd⟩ := hfresh w hw2
          rw [hiv] at hcc
          exact ⟨ha, hb, by omega, hd⟩
      · simp only [List.map_cons, List.nodup_cons]
        refine ⟨?_, hnd⟩
        intro hmem
        simp only [List.mem_map] at hmem
        obtain ⟨w, hw, hid⟩ := hmem
        have := (hfresh w hw).2.2.1
        rw [hiv] at this
        omega
      · intro j u hj hcu
        cases j with
        | zero =>
          simp only [List.getElem?_cons_zero, Option.some.injEq] at hj
          subst hj
          refine ⟨_, List.mem_cons_self _ _, ?_, rfl, rfl⟩
          simp [orderAt]
        | succ j =>
          simp only [List.getElem?_cons_succ] at hj
          obtain ⟨w, hw, ho, hti, hdu⟩ := hper j u hj hcu
          refine ⟨w, List.mem_cons_of_mem _ hw, ?_, hti, hdu⟩
          rw [ho]
          unfold orderAt
          congr 1
          push_cast
          ring
    | isOld raw parsed =>
      have hstep : insertNewVideos tid mid idx (v :: rest) db =
          insertNewVideos tid mid (idx + 1) rest db := by
        simp only [insertNewVideos]
        rw [hc]
      obtain ⟨db2, hrun, h1, h2, h3, h4, news, hv, hfresh, hnd, hper⟩ :=
        ih (idx + 1) db hmd
      refine ⟨db2, by rw [hstep]; exact hrun, h1, h2, h3, h4, news, hv, hfresh, hnd, ?_⟩
      intro j u hj hcu
      cases j with
      | zero =>
        simp only [List.getElem?_cons_zero, Option.some.injEq] at hj
        subst hj
        rw [hcu] at hc
        cases hc
      | succ j =>
        simp only [List.getElem?_cons_succ] at hj
        obtain ⟨w, hw, ho, hti, hdu⟩ := hper j u hj hcu
        refine ⟨w, hw, ?_, hti, hdu⟩
        rw [ho]
        unfold orderAt
        congr 1
        push_cast
        ring
    | isSkip =>
      have hstep : insertNewVideos tid mid idx (v :: rest) db =
          insertNewVideos tid mid (idx + 1) rest db := by
        simp only [insertNewVideos]
        rw [hc]
      obtain ⟨db2, hrun, h1, h2, h3, h4, news, hv, hfresh, hnd, hper⟩ :=
        ih (idx + 1) db hmd
      refine ⟨db2, by rw [hstep]; exact hrun, h1, h2, h3, h4, news, hv, hfresh, hnd, ?_⟩
      intro j u hj hcu
      cases j with
      | zero =>
        simp only [List.getElem?_cons_zero, Option.some.injEq] at hj
        subst hj
        rw [hcu] at hc
        cases hc
      | succ j =>
        simp only [List.getElem?_cons_succ] at hj
        obtain ⟨w, hw, ho, hti, hdu⟩ := hper j u hj hcu
        refine ⟨w, hw, ?_, hti, hdu⟩
        rw [ho]
        unfold orderAt
        congr 1
        push_cast
        ring

/-- Effect of the existing-module video loop when every named id binds: it
succeeds, erases exactly the parsed ids from the leftover list, rewrites
only rows of this module whose id is named, and appends fresh rows of this
module, one per `new-` entry. -/
theorem reconcileVideos_spec (tid mid : Int) :
    ∀ (vs : List VideoPayload) (idx : Nat) (db : Db) (rem : List Int),
    SqlOkVid vs →
    (∀ k ∈ vidOldIds vs, k < db.nextVideoId) →
    (∃ m ∈ db.modules, m.id = mid) →
    ∃ db2 rem2, reconcileVideos tid mid idx vs db rem = .ok (db2, rem2) ∧
      db2.topics = db.topics ∧
      db2.modules = db.modules ∧
      db2.nextModuleId = db.nextModuleId ∧
      db.nextVideoId ≤ db2.nextVideoId ∧
      rem2 = (vidOldIds vs).foldl List.erase rem ∧
      ∃ (g : VideoRow → VideoRow) (news : List VideoRow),
        (∀ r, (g r).id = r.id ∧ (g r).moduleId = r.moduleId ∧ (g r).topicId = r.topicId) ∧
        (∀ r, r.moduleId ≠ mid → g r = r) ∧
        (∀ r, r.id ∉ vidOldIds vs → g r = r) ∧
        db2.videos = db.videos.map g ++ news ∧
        (∀ w ∈ news, w.moduleId = mid ∧ w.topicId = tid ∧
          db.nextVideoId ≤ w.id ∧ w.id < db2.nextVideoId) ∧
        (news.map (fun w => w.id)).Nodup ∧
        (∀ (j : Nat) (v : VideoPayload), vs[j]? = some v → classifyId v.id = .isNew →
          ∃ w ∈ news, w.orderIndex = orderAt v.order idx j ∧
            w.title = jsOrStr v.title ("Untitled Video") ∧
            w.durationSeconds = payloadDurationSeconds v.duration) := by
  intro vs
  induction vs with
  | nil =>
    intro idx db rem _ _ _
    refine ⟨db, rem, rfl, rfl, rfl, rfl, le_refl _, rfl, id, [], ?_, ?_, ?_, by simp, ?_, by simp, ?_⟩
    · intro r; exact ⟨rfl, rfl, rfl⟩
    · intro r _; rfl
    · intro r _; rfl
    · intro w hw; cases hw
    · intro j v hj
      rw [List.getElem?_nil] at hj
      cases hj
  | cons v rest ih =>
    intro idx db rem hsql hbnd hmd
    have hsqlrest : SqlOkVid rest := by
      intro u hu raw k hk
      exact hsql u (List.mem_cons_of_mem _ hu) raw k hk
    cases hc : classifyId v.id with
    | isNew =>
      have hfk : (db.modules.any (fun m => m.id = mid)) = true := by
        obtain ⟨m0, hm0, hid0⟩ := hmd
        exact List.any_eq_true.mpr ⟨m0, hm0, by simpa using hid0⟩
      have hold : vidOldIds (v :: rest) = vidOldIds rest := by
        unfold vidOldIds
        simp only [List.filterMap_cons]
        rw [hc]
      have hstep : reconcileVideos tid mid idx (v :: rest) db rem =
          reconcileVideos tid mid (idx + 1) rest (insertVideoRow db tid mid v idx) rem := by
        simp only [reconcileVideos]
        rw [hc]
        dsimp only
        unfold pgInsertVideo
        rw [if_pos hfk]
      have hiv : (insertVideoRow db tid mid v idx).nextVideoId = db.nextVideoId + 1 := rfl
      have hbnd1 : ∀ k ∈ vidOldIds rest, k < (insertVideoRow db tid mid v idx).nextVideoId := by
        intro k hk
        have := hbnd k (by rw [hold]; exact hk)
        omega
      obtain ⟨db2, rem2, hrun, h1, h2, h3, h4, hrem, g, news, hg, hgm, hgo, hvid, hfresh, hnd, hper⟩ :=
        ih (idx + 1) (insertVideoRow db tid mid v idx) rem hsqlrest hbnd1 hmd
      refine ⟨db2, rem2, by rw [hstep]; exact hrun, h1, h2, h3, by omega, by rw [hrem, hold], ?_⟩
      have hrow : (insertVideoRow db tid mid v idx).videos =
          db.videos ++ [⟨db.nextVideoId, tid, mid, jsOrStr v.title ("Untitled Video"),
            jsOrStr v.description "", jsOrStr v.videoUrl "",
            payloadDurationSeconds v.duration, jsOrInt v.order ((idx : Int) + 1)⟩] := rfl
      have hgrow : g ⟨db.nextVideoId, tid, mid, jsOrStr v.title ("Untitled Video"),
          jsOrStr v.description "", jsOrStr v.videoUrl "",
          payloadDurationSeconds v.duration, jsOrInt v.order ((idx : Int) + 1)⟩ =
          ⟨db.nextVideoId, tid, mid, jsOrStr v.title ("Untitled Video"),
            jsOrStr v.description "", jsOrStr v.videoUrl "",
            payloadDurationSeconds v.duration, jsOrInt v.order ((idx : Int) + 1)⟩ := by
        apply hgo
        intro hmem
        have hlt := hbnd _ (by rw [hold]; exact hmem)
        simp at hlt
      refine ⟨g, (⟨db.nextVideoId, tid, mid, jsOrStr v.title ("Untitled Video"),
        jsOrStr v.description "", jsOrStr v.videoUrl "",
        payloadDurationSeconds v.duration, jsOrInt v.order ((idx : Int) + 1)⟩ : VideoRow) :: news,
        hg, hgm, by rw [hold]; exact hgo, ?_, ?_, ?_, ?_⟩
      · rw [hvid, hrow, List.map_append]
        simp only [List.map_cons, List.map_nil, List.append_assoc, List.singleton_append]
        rw [hgrow]
      · intro w hw
        rcases List.mem_cons.mp hw with rfl | hw2
        · refine ⟨rfl, rfl, le_refl _, ?_⟩
          show db.nextVideoId < db2.nextVideoId
          omega
        · obtain ⟨ha, hb, hcc, hd⟩ := hfresh w hw2
          rw [hiv] at hcc
          exact ⟨ha, hb, by omega, hd⟩
      · simp only [List.map_cons, List.nodup_cons]
        refine ⟨?_, hnd⟩
        intro hmem
        simp only [List.mem_map] at hmem
        obtain ⟨w, hw, hid⟩ := hmem
        have := (hfresh w hw).2.2.1
        rw [hiv] at this
        have hid2 : w.id = db.nextVideoId := hid
        omega
      · intro j u hj hcu
        cases j with
        | zero =>
          simp only [List.getElem?_cons_zero, Option.some.injEq] at hj
          subst hj
          refine ⟨_, List.mem_cons_self _ _, ?_, rfl, rfl⟩
          simp [orderAt]
        | succ j =>
          simp only [List.getElem?_cons_succ] at hj
          obtain ⟨w, hw, ho, hti, hdu⟩ := hper j u hj hcu
          refine ⟨w, List.mem_cons_of_mem _ hw, ?_, hti, hdu⟩
          rw [ho]
          unfold orderAt
          congr 1
          push_cast
          ring
    | isOld raw parsed =>
      have hok : sqlInt raw = .ok parsed :=
        hsql v (List.mem_cons_self _ _) raw parsed hc
      have hold : vidOldIds (v :: rest) = parsed :: vidOldIds rest := by
        unfold vidOldIds
        simp only [List.filterMap_cons]
        rw [hc]
      have hstep : reconcileVideos tid mid idx (v :: rest) db rem =
          reconcileVideos tid mid (idx + 1) rest
            (updateVideoRow db parsed mid v idx) (rem.erase parsed) := by
        simp only [reconcileVideos]
        rw [hc]
        dsimp only
        rw [hok]
      have hupd : (updateVideoRow db parsed mid v idx).nextVideoId = db.nextVideoId := rfl
      have hbnd1 : ∀ k ∈ vidOldIds rest, k < (updateVideoRow db parsed mid v idx).nextVideoId := by
        intro k hk
        have := hbnd k (by rw [hold]; exact List.mem_cons_of_mem _ hk)
        omega
      obtain ⟨db2, rem2, hrun, h1, h2, h3, h4, hrem, g, news, hg, hgm, hgo, hvid, hfresh, hnd, hper⟩ :=
        ih (idx + 1) (updateVideoRow db parsed mid v idx) (rem.erase parsed) hsqlrest hbnd1
          (by
            obtain ⟨m0, hm0, hid0⟩ := hmd
            exact ⟨m0, hm0, hid0⟩)
      have hu : ∀ r : VideoRow, ((updVidFn parsed mid v idx) r).id = r.id ∧
          ((updVidFn parsed mid v idx) r).moduleId = r.moduleId ∧
          ((updVidFn parsed mid v idx) r).topicId = r.topicId := by
        intro r
        unfold updVidFn
        by_cases h : r.id = parsed ∧ r.moduleId = mid
        · rw [if_pos h]
          exact ⟨rfl, rfl, rfl⟩
        · rw [if_neg h]
          exact ⟨rfl, rfl, rfl⟩
      refine ⟨db2, rem2, by rw [hstep]; exact hrun, h1, h2, h3, by omega,
        by rw [hrem, hold]; rfl, ?_⟩
      refine ⟨fun r => g (updVidFn parsed mid v idx r), news, ?_, ?_, ?_, ?_, ?_, hnd, ?_⟩
      · intro r
        obtain ⟨ha, hb, hcc⟩ := hu r
        obtain ⟨ha2, hb2, hc2⟩ := hg (updVidFn parsed mid v idx r)
        exact ⟨by rw [ha2, ha], by rw [hb2, hb], by rw [hc2, hcc]⟩
      · intro r hr
        have h1r : updVidFn parsed mid v idx r = r := by
          unfold updVidFn
          rw [if_neg]
          intro ⟨_, h2r⟩
          exact hr h2r
        show g (updVidFn parsed mid v idx r) = r
        rw [h1r]
        exact hgm r hr
      · intro r hr
        rw [hold] at hr
        have h1r : updVidFn parsed mid v idx r = r := by
          unfold updVidFn
          rw [if_neg]
          intro ⟨h2r, _⟩
          exact hr (by rw [h2r]; exact List.mem_cons_self _ _)
        show g (updVidFn parsed mid v idx r) = r
        rw [h1r]
        exact hgo r (fun hmem => hr (List.mem_cons_of_mem _ hmem))
      · rw [hvid]
        have : (updateVideoRow db parsed mid v idx).videos =
            db.videos.map (updVidFn parsed mid v idx) := rfl
        rw [this, List.map_map]
        rfl
      · intro w hw
        obtain ⟨ha, hb, hcc, hd⟩ := hfresh w hw
        rw [hupd] at hcc
        exact ⟨ha, hb, hcc, hd⟩
      · intro j u hj hcu
        cases j with
        | zero =>
          simp only [List.getElem?_cons_zero, Option.some.injEq] at hj
          subst hj
          rw [hcu] at hc
          cases hc
        | succ j =>
          simp only [List.getElem?_cons_succ] at hj
          obtain ⟨w, hw, ho, hti, hdu⟩ := hper j u hj hcu
          refine ⟨w, hw, ?_, hti, hdu⟩
          rw [ho]
          unfold orderAt
          congr 1
          push_cast
          ring
    | isSkip =>
      have hold : vidOldIds (v :: rest) = vidOldIds rest := by
        unfold vidOldIds
        simp only [List.filterMap_cons]
        rw [hc]
      have hstep : reconcileVideos tid mid idx (v :: rest) db rem =
          reconcileVideos tid mid (idx + 1) rest db rem := by
        simp only [reconcileVideos]
        rw [hc]
      have hbnd1 : ∀ k ∈ vidOldIds rest, k < db.nextVideoId := by
        intro k hk
        exact hbnd k (by rw [hold]; exact hk)
      obtain ⟨db2, rem2, hrun, h1, h2, h3, h4, hrem, g, news, hg, hgm, hgo, hvid, hfresh, hnd, hper⟩ :=
        ih (idx + 1) db rem hsqlrest hbnd1 hmd
      refine ⟨db2, rem2, by rw [hstep]; exact hrun, h1, h2, h3, h4, by rw [hrem, hold],
        g, news, hg, hgm, by rw [hold]; exact hgo, hvid, hfresh, hnd, ?_⟩
      intro j u hj hcu
      cases j with
      | zero =>
        simp only [List.getElem?_cons_zero, Option.some.injEq] at hj
        subst hj
        rw [hcu] at hc
        cases hc
      | succ j =>
        simp only [List.getElem?_cons_succ] at hj
        obtain ⟨w, hw, ho, hti, hdu⟩ := hper j u hj hcu
        refine ⟨w, hw, ?_, hti, hdu⟩
        rw [ho]
        unfold orderAt
        congr 1
        push_cast
        ring

/-- Repeatedly erasing elements never adds elements. -/
theorem foldl_erase_subset (ds : List Int) : ∀ l : List Int, (ds.foldl List.erase l) ⊆ l := by
  induction ds with
  | nil => intro l; exact fun x h => h
  | cons d ds ih =>
    intro l
    intro x hx
    have h1 : x ∈ l.erase d := ih (l.erase d) hx
    exact List.erase_subset _ _ h1

/-- An element outside the erased list survives the erasures. -/
theorem mem_foldl_erase (ds : List Int) : ∀ (l : List Int) (x : Int), x ∈ l → x ∉ ds →
    x ∈ ds.foldl List.erase l := by
  induction ds with
  | nil => intro l x hx _; exact hx
  | cons d ds ih =>
    intro l x hx hnd
    have hne : x ≠ d := fun he => hnd (he ▸ List.mem_cons_self _ _)
    exact ih (l.erase d) x ((List.mem_erase_of_ne hne).mpr hx)
      (fun hmem => hnd (List.mem_cons_of_mem _ hmem))

/-- On a duplicate-free list, the erasures remove exactly the named
elements. -/
theorem nodup_mem_foldl_erase (ds : List Int) : ∀ (l : List Int) (x : Int), l.Nodup →
    (x ∈ ds.foldl List.erase l ↔ x ∈ l ∧ x ∉ ds) := by
  induction ds with
  | nil => intro l x _; simp
  | cons d ds ih =>
    intro l x hnd
    have h1 := ih (l.erase d) x (hnd.erase d)
    simp only [List.foldl_cons]
    rw [h1, List.Nodup.mem_erase_iff hnd]
    constructor
    · intro ⟨⟨hne, hmem⟩, hnotin⟩
      refine ⟨hmem, ?_⟩
      intro hin
      rcases List.mem_cons.mp hin with he | hin2
      · exact hne he
      · exact hnotin hin2
    · intro ⟨hmem, hnotin⟩
      refine ⟨⟨?_, hmem⟩, ?_⟩
      · intro he
        exact hnotin (he ▸ List.mem_cons_self _ _)
      · intro hin
        exact hnotin (List.mem_cons_of_mem _ hin)

/-- Effect of the module loop when every named id binds, the named module
ids are distinct and refer below the module sequence, and the state is
well-formed.  The loop succeeds; it erases exactly the parsed module ids
from the leftover list; the modules table becomes an id-, topic- and
duration-preserving rewrite of the old rows (touching only named rows of
this topic) plus fresh rows of this topic, one per `new-` entry, carrying
the order-or-position index; well-formedness is preserved. -/
theorem reconcileModulesGo_spec (tid : Int) :
    ∀ (ps : List ModulePayload) (idx : Nat) (db : Db) (rem : List Int),
    SqlOkPayload ps →
    (modOldIds ps).Nodup →
    (∀ k ∈ modOldIds ps, k < db.nextModuleId) →
    (∀ k ∈ modOldIds ps, ∃ mr ∈ db.modules, mr.id = k) →
    (db.modules.map (fun m => m.id)).Nodup →
    (∀ m ∈ db.modules, m.id < db.nextModuleId) →
    (db.videos.map (fun v => v.id)).Nodup →
    (∀ v ∈ db.videos, v.id < db.nextVideoId) →
    (∀ v ∈ db.videos, v.moduleId < db.nextModuleId) →
    (∀ u ∈ ps, ∀ vs, u.videos = some vs → ∀ k ∈ vidOldIds vs, k < db.nextVideoId) →
    ∃ db2 rem2, reconcileModulesGo tid idx ps db rem = .ok (db2, rem2) ∧
      db2.topics = db.topics ∧
      db.nextModuleId ≤ db2.nextModuleId ∧
      db.nextVideoId ≤ db2.nextVideoId ∧
      rem2 = (modOldIds ps).foldl List.erase rem ∧
      (db2.modules.map (fun m => m.id)).Nodup ∧
      (∀ m ∈ db2.modules, m.id < db2.nextModuleId) ∧
      (db2.videos.map (fun v => v.id)).Nodup ∧
      (∀ v ∈ db2.videos, v.id < db2.nextVideoId) ∧
      (∀ v ∈ db2.videos, v.moduleId < db2.nextModuleId) ∧
      (∃ (f : ModuleRow → ModuleRow) (newsM : List ModuleRow),
        (∀ r, (f r).id = r.id ∧ (f r).topicId = r.topicId ∧
          (f r).durationMinutes = r.durationMinutes) ∧
        (∀ r, r.id ∉ modOldIds ps → f r = r) ∧
        (∀ r, r.topicId ≠ tid → f r = r) ∧
        db2.modules = db.modules.map f ++ newsM ∧
        (∀ w ∈ newsM, w.topicId = tid ∧ db.nextModuleId ≤ w.id ∧
          w.id < db2.nextModuleId ∧ w.durationMinutes = 0) ∧
        (∀ (j : Nat) (m : ModulePayload), ps[j]? = some m → classifyId m.id = .isNew →
          ∃ w ∈ newsM, w.orderIndex = orderAt m.order idx j ∧
            w.title = jsOrStr m.title ("Untitled Module"))) ∧
      (∀ v ∈ db.videos, v.moduleId ∉ modOldIds ps → v ∈ db2.videos) ∧
      (∀ x : Int, x < db.nextVideoId → (∀ w ∈ db.videos, w.id ≠ x) →
        (∀ w ∈ db2.videos, w.id ≠ x)) ∧
      (∀ u ∈ ps, ∀ raw k vsu, classifyId u.id = .isOld raw k → u.videos = some vsu →
        ∀ v ∈ db.videos, v.moduleId = k → v.id ∉ vidOldIds vsu →
        (∀ w ∈ db2.videos, w.id ≠ v.id)) ∧
      (∀ u ∈ ps, ∀ raw k vsu, classifyId u.id = .isOld raw k → u.videos = some vsu →
        ∀ (j : Nat) (v : VideoPayload), vsu[j]? = some v → classifyId v.id = .isNew →
        ∃ w ∈ db2.videos, w.moduleId = k ∧ w.topicId = tid ∧ db.nextVideoId ≤ w.id ∧
          w.orderIndex = orderAt v.order 0 j ∧ w.title = jsOrStr v.title ("Untitled Video") ∧
          w.durationSeconds = payloadDurationSeconds v.duration) ∧
      (∀ u ∈ ps, classifyId u.id = .isNew → ∀ vsu, u.videos = some vsu →
        ∀ (j : Nat) (v : VideoPayload), vsu[j]? = some v → classifyId v.id = .isNew →
        ∃ w ∈ db2.videos, w.topicId = tid ∧ db.nextModuleId ≤ w.moduleId ∧
          db.nextVideoId ≤ w.id ∧
          w.orderIndex = orderAt v.order 0 j ∧ w.title = jsOrStr v.title ("Untitled Video") ∧
          w.durationSeconds = payloadDurationSeconds v.duration) := by
  intro ps
  induction ps with
  | nil =>
    intro idx db rem _ _ _ _ hWfMn hWfMb hWfVn hWfVb hWfVm _
    refine ⟨db, rem, rfl, rfl, le_refl _, le_refl _, rfl, hWfMn, hWfMb, hWfVn, hWfVb, hWfVm,
      ⟨id, [], ?_, ?_, ?_, by simp, ?_, ?_⟩, ?_, ?_, ?_, ?_, ?_⟩
    · intro r; exact ⟨rfl, rfl, rfl⟩
    · intro r _; rfl
    · intro r _; rfl
    · intro w hw; cases hw
    · intro j m hj
      rw [List.getElem?_nil] at hj
      cases hj
    · intro v hv _; exact hv
    · intro x _ hab w hw; exact hab w hw
    · intro u hu; cases hu
    · intro u hu; cases hu
    · intro u hu; cases hu
  | cons m rest ih =>
    intro idx db rem hsql hNod hmbnd hmex hWfMn hWfMb hWfVn hWfVb hWfVm hpv
    have hsqlrest : SqlOkPayload rest := by
      intro u hu
      exact hsql u (List.mem_cons_of_mem _ hu)
    have hpvrest : ∀ u ∈ rest, ∀ vs, u.videos = some vs →
        ∀ k ∈ vidOldIds vs, k < db.nextVideoId := by
      intro u hu
      exact hpv u (List.mem_cons_of_mem _ hu)
    cases hc : classifyId m.id with
    | isNew =>
      have hold : modOldIds (m :: rest) = modOldIds rest := by
        unfold modOldIds
        simp only [List.filterMap_cons]
        rw [hc]
      -- facts about the inserted module row and the optional video loop
      have hins : (insertModuleRow db tid m idx).modules =
          db.modules ++ [⟨db.nextModuleId, tid, jsOrStr m.title ("Untitled Module"),
            jsOrStr m.description "", jsOrInt m.order ((idx : Int) + 1), 0⟩] := rfl
      have hinsn : (insertModuleRow db tid m idx).nextModuleId = db.nextModuleId + 1 := rfl
      obtain ⟨dbI, hstep, hIm, hIn, hIv, hIt, newsI, hIvids, hIvf, hIvnd, hIper⟩ :
          ∃ dbI : Db,
            (reconcileModulesGo tid idx (m :: rest) db rem =
              reconcileModulesGo tid (idx + 1) rest dbI rem) ∧
            dbI.modules = (insertModuleRow db tid m idx).modules ∧
            dbI.nextModuleId = db.nextModuleId + 1 ∧
            (insertModuleRow db tid m idx).nextVideoId ≤ dbI.nextVideoId ∧
            dbI.topics = db.topics ∧
            ∃ news : List VideoRow,
              dbI.videos = (insertModuleRow db tid m idx).videos ++ news ∧
              (∀ w ∈ news, w.moduleId = db.nextModuleId ∧ w.topicId = tid ∧
                (insertModuleRow db tid m idx).nextVideoId ≤ w.id ∧
                w.id < dbI.nextVideoId) ∧
              (news.map (fun w => w.id)).Nodup ∧
              (∀ vsu, m.videos = some vsu →
                ∀ (j : Nat) (v : VideoPayload), vsu[j]? = some v →
                classifyId v.id = .isNew →
                ∃ w ∈ news, w.orderIndex = orderAt v.order 0 j ∧
                  w.title = jsOrStr v.title ("Untitled Video") ∧
                  w.durationSeconds = payloadDurationSeconds v.duration) := by
        cases hmv : m.videos with
        | none =>
          refine ⟨insertModuleRow db tid m idx, ?_, rfl, rfl, le_refl _, rfl, [],
            by simp, ?_, by simp, ?_⟩
          · simp only [reconcileModulesGo]
            rw [hc]
            dsimp only
            rw [hmv]
          · intro w hw
            cases hw
          · intro vsu hvsu
            cases hvsu
        | some vs =>
          have hmdI : ∃ m0 ∈ (insertModuleRow db tid m idx).modules,
              m0.id = db.nextModuleId := by
            refine ⟨⟨db.nextModuleId, tid, jsOrStr m.title ("Untitled Module"),
              jsOrStr m.description "", jsOrInt m.order ((idx : Int) + 1), 0⟩, ?_, rfl⟩
            rw [hins]
            exact List.mem_append_right _ (List.mem_cons_self _ _)
          obtain ⟨dbJ, hrunI, g1, g2, g3, g4, news, ha, hb, hcc, hper0⟩ :=
            insertNewVideos_spec tid db.nextModuleId vs 0 (insertModuleRow db tid m idx) hmdI
          refine ⟨dbJ, ?_, g2, by rw [g3]; rfl, g4, by rw [g1]; rfl, news, ha, hb, hcc, ?_⟩
          · simp only [reconcileModulesGo]
            rw [hc]
            dsimp only
            rw [hmv]
            dsimp only
            rw [hrunI]
          · intro vsu hvsu j v hj hcv
            injection hvsu with hvv
            subst hvv
            exact hper0 j v hj hcv
      -- well-formedness going into the recursion
      have hWfMn1 : (dbI.modules.map (fun r => r.id)).Nodup := by
        rw [hIm, hins]
        simp only [List.map_append, List.map_cons, List.map_nil]
        rw [List.nodup_append]
        refine ⟨hWfMn, by simp, ?_⟩
        intro a ha hb
        simp only [List.mem_map] at ha
        obtain ⟨r, hr, hrid⟩ := ha
        simp only [List.mem_cons, List.mem_singleton] at hb
        have := hWfMb r hr
        simp at hb
        omega
      have hWfMb1 : ∀ r ∈ dbI.modules, r.id < dbI.nextModuleId := by
        rw [hIm, hins, hIn]
        intro r hr
        rcases List.mem_append.mp hr with h | h
        · have := hWfMb r h
          omega
        · simp only [List.mem_singleton] at h
          subst h
          simp
      have hWfVn1 : (dbI.videos.map (fun v => v.id)).Nodup := by
        rw [hIvids]
        simp only [List.map_append]
        rw [List.nodup_append]
        refine ⟨hWfVn, hIvnd, ?_⟩
        intro a ha hb
        simp only [List.mem_map] at ha hb
        obtain ⟨r, hr, hrid⟩ := ha
        obtain ⟨w, hw, hwid⟩ := hb
        have h1 := hWfVb r hr
        have h2 := (hIvf w hw).2.2.1
        have h3 : (insertModuleRow db tid m idx).nextVideoId = db.nextVideoId := rfl
        omega
      have hWfVb1 : ∀ v ∈ dbI.videos, v.id < dbI.nextVideoId := by
        rw [hIvids]
        intro v hv
        rcases List.mem_append.mp hv with h | h
        · have h1 := hWfVb v h
          have h3 : (insertModuleRow db tid m idx).nextVideoId = db.nextVideoId := rfl
          omega
        · exact (hIvf v h).2.2.2
      have hWfVm1 : ∀ v ∈ dbI.videos, v.moduleId < dbI.nextModuleId := by
        rw [hIvids, hIn]
        intro v hv
        rcases List.mem_append.mp hv with h | h
        · have := hWfVm v h
          omega
        · have := (hIvf v h).1
          omega
      have hmbnd1 : ∀ k ∈ modOldIds rest, k < dbI.nextModuleId := by
        rw [hIn]
        intro k hk
        have := hmbnd k (by rw [hold]; exact hk)
        omega
      obtain ⟨db2, rem2, hrun, h1, h2, h3, hrem, hn1, hn2, hn3, hn4, hn5,
        ⟨f, newsM, hf, hfo, hft, hmods, hnf, hper⟩, hE1, hE3, hG, hI, hI2⟩ :=
        ih (idx + 1) dbI rem hsqlrest (by rw [hold] at hNod; exact hNod) hmbnd1
          (by
            intro k hk
            obtain ⟨mr, hmr, hid⟩ := hmex k (by rw [hold]; exact hk)
            refine ⟨mr, ?_, hid⟩
            rw [hIm, hins]
            exact List.mem_append_left _ hmr)
          hWfMn1 hWfMb1 hWfVn1 hWfVb1 hWfVm1
          (by
            intro u hu vs2 hvs2 k hk
            have h1 := hpvrest u hu vs2 hvs2 k hk
            have h3v : (insertModuleRow db tid m idx).nextVideoId = db.nextVideoId := rfl
            have := hIv
            omega)
      have hIn2 : db.nextModuleId + 1 ≤ db2.nextModuleId := by rw [← hIn]; exact h2
      have hIv2 : db.nextVideoId ≤ db2.nextVideoId := by
        have h3v : (insertModuleRow db tid m idx).nextVideoId = db.nextVideoId := rfl
        calc db.nextVideoId = (insertModuleRow db tid m idx).nextVideoId := h3v.symm
          _ ≤ dbI.nextVideoId := hIv
          _ ≤ db2.nextVideoId := h3
      have h3v : (insertModuleRow db tid m idx).nextVideoId = db.nextVideoId := rfl
      refine ⟨db2, rem2, by rw [hstep]; exact hrun, by rw [h1, hIt], by omega, hIv2,
        by rw [hrem, hold], hn1, hn2, hn3, hn4, hn5, ?_, ?_, ?_, ?_, ?_, ?_⟩
      · -- module rows: the new row joins the news list
        have hrowf : f ⟨db.nextModuleId, tid, jsOrStr m.title ("Untitled Module"),
            jsOrStr m.description "", jsOrInt m.order ((idx : Int) + 1), 0⟩ =
            ⟨db.nextModuleId, tid, jsOrStr m.title ("Untitled Module"),
              jsOrStr m.description "", jsOrInt m.order ((idx : Int) + 1), 0⟩ := by
          apply hfo
          intro hmem
          have := hmbnd _ (by rw [hold]; exact hmem)
          simp at this
        refine ⟨f, (⟨db.nextModuleId, tid, jsOrStr m.title ("Untitled Module"),
          jsOrStr m.description "", jsOrInt m.order ((idx : Int) + 1), 0⟩ : ModuleRow) :: newsM,
          hf, by rw [hold]; exact hfo, hft, ?_, ?_, ?_⟩
        · rw [hmods, hIm, hins, List.map_append]
          simp only [List.map_cons, List.map_nil, List.append_assoc, List.singleton_append]
          rw [hrowf]
        · intro w hw
          rcases List.mem_cons.mp hw with rfl | hw2
          · refine ⟨rfl, le_refl _, ?_, rfl⟩
            show db.nextModuleId < db2.nextModuleId
            omega
          · obtain ⟨ha, hb, hcc, hd⟩ := hnf w hw2
            rw [hIn] at hb
            exact ⟨ha, by omega, hcc, hd⟩
        · intro j u hj hcu
          cases j with
          | zero =>
            simp only [List.getElem?_cons_zero, Option.some.injEq] at hj
            subst hj
            refine ⟨_, List.mem_cons_self _ _, ?_, rfl⟩
            simp [orderAt]
          | succ j =>
            simp only [List.getElem?_cons_succ] at hj
            obtain ⟨w, hw, ho, hti⟩ := hper j u hj hcu
            refine ⟨w, List.mem_cons_of_mem _ hw, ?_, hti⟩
            rw [ho]
            unfold orderAt
            congr 1
            push_cast
            ring
      · -- untouched modules keep their videos
        intro v hv hnm
        refine hE1 v ?_ (by rw [hold] at hnm; exact hnm)
        rw [hIvids]
        exact List.mem_append_left _ hv
      · -- ids absent before stay absent
        intro x hx hab w hw
        refine hE3 x (by omega) ?_ w hw
        intro w2 hw2
        rw [hIvids] at hw2
        rcases List.mem_append.mp hw2 with h | h
        · exact hab w2 h
        · intro heq
          have := (hIvf w2 h).2.2.1
          omega
      · -- unnamed videos of a named surviving module disappear
        intro u hu raw k vsu hcu hvsu v hv hvm hvnot w hw
        rcases List.mem_cons.mp hu with rfl | hurest
        · rw [hcu] at hc
          cases hc
        · refine hG u hurest raw k vsu hcu hvsu v ?_ hvm hvnot w hw
          rw [hIvids]
          exact List.mem_append_left _ hv
      · -- new videos named under an existing module are inserted
        intro u hu raw k vsu hcu hvsu j v hj hcv
        rcases List.mem_cons.mp hu with rfl | hurest
        · rw [hcu] at hc
          cases hc
        · obtain ⟨w, hw2, hmod, hti, hbv, hord, htit, hdur⟩ :=
            hI u hurest raw k vsu hcu hvsu j v hj hcv
          exact ⟨w, hw2, hmod, hti, by omega, hord, htit, hdur⟩
      · -- new videos under a new module are inserted
        intro u hu hcu vsu hvsu j v hj hcv
        rcases List.mem_cons.mp hu with rfl | hurest
        · obtain ⟨w, hwmem, hord, htit, hdur⟩ := hIper vsu hvsu j v hj hcv
          have hfr := hIvf w hwmem
          have hwIn : w ∈ dbI.videos := by
            rw [hIvids]
            exact List.mem_append_right _ hwmem
          have hw2 : w ∈ db2.videos := by
            refine hE1 w hwIn ?_
            intro hmem
            have h1 := hmbnd _ (by rw [hold]; exact hmem)
            have h2 := hfr.1
            omega
          refine ⟨w, hw2, hfr.2.1, ?_, ?_, hord, htit, hdur⟩
          · rw [hfr.1]
          · have := hfr.2.2.1
            omega
        · obtain ⟨w, hw2, hti, hbm, hbv, hord, htit, hdur⟩ :=
            hI2 u hurest hcu vsu hvsu j v hj hcv
          refine ⟨w, hw2, hti, ?_, by omega, hord, htit, hdur⟩
          rw [hIn] at hbm
          omega
    | isSkip =>
      have hold : modOldIds (m :: rest) = modOldIds rest := by
        unfold modOldIds
        simp only [List.filterMap_cons]
        rw [hc]
      have hstep : reconcileModulesGo tid idx (m :: rest) db rem =
          reconcileModulesGo tid (idx + 1) rest db rem := by
        simp only [reconcileModulesGo]
        rw [hc]
      obtain ⟨db2, rem2, hrun, h1, h2, h3, hrem, hn1, hn2, hn3, hn4, hn5,
        ⟨f, newsM, hf, hfo, hft, hmods, hnf, hper⟩, hE1, hE3, hG, hI, hI2⟩ :=
        ih (idx + 1) db rem hsqlrest (by rw [hold] at hNod; exact hNod)
          (by intro k hk; exact hmbnd k (by rw [hold]; exact hk))
          (by intro k hk; exact hmex k (by rw [hold]; exact hk))
          hWfMn hWfMb hWfVn hWfVb hWfVm hpvrest
      refine ⟨db2, rem2, by rw [hstep]; exact hrun, h1, h2, h3, by rw [hrem, hold],
        hn1, hn2, hn3, hn4, hn5, ⟨f, newsM, hf, by rw [hold]; exact hfo, hft,
        hmods, hnf, ?_⟩, ?_, ?_, ?_, ?_, ?_⟩
      · intro j u hj hcu
        cases j with
        | zero =>
          simp only [List.getElem?_cons_zero, Option.some.injEq] at hj
          subst hj
          rw [hcu] at hc
          cases hc
        | succ j =>
          simp only [List.getElem?_cons_succ] at hj
          obtain ⟨w, hw, ho, hti⟩ := hper j u hj hcu
          refine ⟨w, hw, ?_, hti⟩
          rw [ho]
          unfold orderAt
          congr 1
          push_cast
          ring
      · intro v hv hnm
        exact hE1 v hv (by rw [hold] at hnm; exact hnm)
      · exact hE3
      · intro u hu raw k vsu hcu hvsu v hv hvm hvnot w hw
        rcases List.mem_cons.mp hu with rfl | hurest
        · rw [hcu] at hc
          cases hc
        · exact hG u hurest raw k vsu hcu hvsu v hv hvm hvnot w hw
      · intro u hu raw k vsu hcu hvsu j v hj hcv
        rcases List.mem_cons.mp hu with rfl | hurest
        · rw [hcu] at hc
          cases hc
        · exact hI u hurest raw k vsu hcu hvsu j v hj hcv
      · intro u hu hcu vsu hvsu j v hj hcv
        rcases List.mem_cons.mp hu with rfl | hurest
        · rw [hcu] at hc
          cases hc
        · exact hI2 u hurest hcu vsu hvsu j v hj hcv
    | isOld raw parsed =>
      have hok : sqlInt raw = .ok parsed := (hsql m (List.mem_cons_self _ _)).1 raw parsed hc
      have hold : modOldIds (m :: rest) = parsed :: modOldIds rest := by
        unfold modOldIds
        simp only [List.filterMap_cons]
        rw [hc]
      have hNodRest : (modOldIds rest).Nodup := by
        rw [hold] at hNod
        exact (List.nodup_cons.mp hNod).2
      have hpmem : parsed ∉ modOldIds rest := by
        rw [hold] at hNod
        exact (List.nodup_cons.mp hNod).1
      have hpbnd : parsed < db.nextModuleId :=
        hmbnd parsed (by rw [hold]; exact List.mem_cons_self _ _)
      -- the module update
      have hup : (updateModuleRow db parsed tid m idx).modules =
          db.modules.map (updModFn parsed tid m idx) := rfl
      have hupf : ∀ r : ModuleRow, ((updModFn parsed tid m idx) r).id = r.id ∧
          ((updModFn parsed tid m idx) r).topicId = r.topicId ∧
          ((updModFn parsed tid m idx) r).durationMinutes = r.durationMinutes := by
        intro r
        unfold updModFn
        by_cases h : r.id = parsed ∧ r.topicId = tid
        · rw [if_pos h]; exact ⟨rfl, rfl, rfl⟩
        · rw [if_neg h]; exact ⟨rfl, rfl, rfl⟩
      have hupo : ∀ r : ModuleRow, r.id ≠ parsed → updModFn parsed tid m idx r = r := by
        intro r hr
        unfold updModFn
        rw [if_neg]
        intro ⟨h1, _⟩
        exact hr h1
      have hupt : ∀ r : ModuleRow, r.topicId ≠ tid → updModFn parsed tid m idx r = r := by
        intro r hr
        unfold updModFn
        rw [if_neg]
        intro ⟨_, h2⟩
        exact hr h2
      cases hmv : m.videos with
      | none =>
        have hstep : reconcileModulesGo tid idx (m :: rest) db rem =
            reconcileModulesGo tid (idx + 1) rest
              (updateModuleRow db parsed tid m idx) (rem.erase parsed) := by
          simp only [reconcileModulesGo]
          rw [hc]
          dsimp only
          rw [hok]
          dsimp only
          rw [hmv]
        have hWfMn1 : ((updateModuleRow db parsed tid m idx).modules.map
            (fun r => r.id)).Nodup := by
          rw [hup, List.map_map]
          have : ((fun r : ModuleRow => r.id) ∘ updModFn parsed tid m idx) =
              fun r : ModuleRow => r.id := by
            funext r
            exact (hupf r).1
          rw [this]
          exact hWfMn
        have hWfMb1 : ∀ r ∈ (updateModuleRow db parsed tid m idx).modules,
            r.id < (updateModuleRow db parsed tid m idx).nextModuleId := by
          rw [hup]
          intro r hr
          simp only [List.mem_map] at hr
          obtain ⟨r0, hr0, hreq⟩ := hr
          have h1 := hWfMb r0 hr0
          have h2 := (hupf r0).1
          rw [hreq] at h2
          show r.id < db.nextModuleId
          omega
        obtain ⟨db2, rem2, hrun, h1, h2, h3, hrem, hn1, hn2, hn3, hn4, hn5,
          ⟨f, newsM, hf, hfo, hft, hmods, hnf, hper⟩, hE1, hE3, hG, hI, hI2⟩ :=
          ih (idx + 1) (updateModuleRow db parsed tid m idx) (rem.erase parsed)
            hsqlrest hNodRest (by intro k hk; exact hmbnd k (by rw [hold]; exact List.mem_cons_of_mem _ hk))
            (by
              intro k hk
              obtain ⟨mr, hmr, hid⟩ := hmex k (by rw [hold]; exact List.mem_cons_of_mem _ hk)
              refine ⟨updModFn parsed tid m idx mr, ?_, ?_⟩
              · rw [hup]
                exact List.mem_map.mpr ⟨mr, hmr, rfl⟩
              · rw [(hupf mr).1]
                exact hid)
            hWfMn1 hWfMb1 hWfVn hWfVb hWfVm hpvrest
        refine ⟨db2, rem2, by rw [hstep]; exact hrun, h1, h2, h3,
          by rw [hrem, hold]; rfl, hn1, hn2, hn3, hn4, hn5, ?_, ?_, ?_, ?_, ?_, ?_⟩
        · refine ⟨fun r => f (updModFn parsed tid m idx r), newsM, ?_, ?_, ?_, ?_, hnf, ?_⟩
          · intro r
            obtain ⟨ha, hb, hcc⟩ := hupf r
            obtain ⟨ha2, hb2, hc2⟩ := hf (updModFn parsed tid m idx r)
            exact ⟨by rw [ha2, ha], by rw [hb2, hb], by rw [hc2, hcc]⟩
          · intro r hr
            rw [hold] at hr
            have h1r := hupo r (fun he => hr (by rw [he]; exact List.mem_cons_self _ _))
            show f (updModFn parsed tid m idx r) = r
            rw [h1r]
            exact hfo r (fun hmem => hr (List.mem_cons_of_mem _ hmem))
          · intro r hr
            have h1r := hupt r hr
            show f (updModFn parsed tid m idx r) = r
            rw [h1r]
            exact hft r hr
          · rw [hmods, hup, List.map_map]
            rfl
          · intro j u hj hcu
            cases j with
            | zero =>
              simp only [List.getElem?_cons_zero, Option.some.injEq] at hj
              subst hj
              rw [hcu] at hc
              cases hc
            | succ j =>
              simp only [List.getElem?_cons_succ] at hj
              obtain ⟨w, hw, ho, hti⟩ := hper j u hj hcu
              refine ⟨w, hw, ?_, hti⟩
              rw [ho]
              unfold orderAt
              congr 1
              push_cast
              ring
        · intro v hv hnm
          refine hE1 v hv ?_
          intro hmem
          exact hnm (by rw [hold]; exact List.mem_cons_of_mem _ hmem)
        · exact hE3
        · intro u hu raw2 k vsu hcu hvsu v hv hvm hvnot w hw
          rcases List.mem_cons.mp hu with rfl | hurest
          · rw [hmv] at hvsu
            cases hvsu
          · exact hG u hurest raw2 k vsu hcu hvsu v hv hvm hvnot w hw
        · intro u hu raw2 k vsu hcu hvsu j v hj hcv
          rcases List.mem_cons.mp hu with rfl | hurest
          · rw [hmv] at hvsu
            cases hvsu
          · exact hI u hurest raw2 k vsu hcu hvsu j v hj hcv
        · intro u hu hcu vsu hvsu j v hj hcv
          rcases List.mem_cons.mp hu with rfl | hurest
          · rw [hcu] at hc
            cases hc
          · exact hI2 u hurest hcu vsu hvsu j v hj hcv
      | some vs =>
        have hsqlv : SqlOkVid vs := (hsql m (List.mem_cons_self _ _)).2 vs hmv
        have hupv : (updateModuleRow db parsed tid m idx).videos = db.videos := rfl
        have hupnv : (updateModuleRow db parsed tid m idx).nextVideoId = db.nextVideoId := rfl
        have hupnm : (updateModuleRow db parsed tid m idx).nextModuleId = db.nextModuleId := rfl
        have hupt2 : (updateModuleRow db parsed tid m idx).topics = db.topics := rfl
        have hvbndv : ∀ k ∈ vidOldIds vs,
            k < (updateModuleRow db parsed tid m idx).nextVideoId := by
          rw [hupnv]
          exact hpv m (List.mem_cons_self _ _) vs hmv
        obtain ⟨dbA, remV, hrunV, hA1, hA2, hA3, hA4, hremV, g, newsV,
          hg, hgm, hgo, hAvids, hAf, hAnd, hAper⟩ :=
          reconcileVideos_spec tid parsed vs 0 (updateModuleRow db parsed tid m idx)
            (((updateModuleRow db parsed tid m idx).videos.filter
              (fun v => v.moduleId = parsed)).map (fun v => v.id)) hsqlv hvbndv
            (by
              obtain ⟨mr, hmr, hid⟩ := hmex parsed (by rw [hold]; exact List.mem_cons_self _ _)
              refine ⟨updModFn parsed tid m idx mr, ?_, ?_⟩
              · rw [hup]
                exact List.mem_map.mpr ⟨mr, hmr, rfl⟩
              · rw [(hupf mr).1]
                exact hid)
        set db3 : Db := { dbA with videos := dbA.videos.filter (fun v => v.id ∉ remV) }
          with hdb3
        have hstep : reconcileModulesGo tid idx (m :: rest) db rem =
            reconcileModulesGo tid (idx + 1) rest db3 (rem.erase parsed) := by
          simp only [reconcileModulesGo]
          rw [hc]
          dsimp only
          rw [hok]
          dsimp only
          rw [hmv]
          dsimp only
          rw [hrunV]
        have h3mods : db3.modules = db.modules.map (updModFn parsed tid m idx) := by
          rw [hdb3]
          show dbA.modules = _
          rw [hA2, hup]
        have h3top : db3.topics = db.topics := by
          rw [hdb3]
          show dbA.topics = _
          rw [hA1, hupt2]
        have h3nm : db3.nextModuleId = db.nextModuleId := by
          rw [hdb3]
          show dbA.nextModuleId = _
          rw [hA3, hupnm]
        have h3nv : db3.nextVideoId = dbA.nextVideoId := rfl
        have hnvA : db.nextVideoId ≤ dbA.nextVideoId := by
          rw [← hupnv]
          exact hA4
        have hremVsub : remV ⊆
            (db.videos.filter (fun v => v.moduleId = parsed)).map (fun v => v.id) := by
          rw [hremV]
          intro x hx
          have h1 := foldl_erase_subset (vidOldIds vs) _ hx
          rw [hupv] at h1
          exact h1
        have hremVbnd : ∀ x ∈ remV, x < db.nextVideoId := by
          intro x hx
          have h1 := hremVsub hx
          rcases List.mem_map.mp h1 with ⟨v, hvf, hv2⟩
          rcases List.mem_filter.mp hvf with ⟨hv1, _⟩
          have := hWfVb v hv1
          omega
        have h3vids : db3.videos =
            (db.videos.filter (fun v => v.id ∉ remV)).map g ++ newsV := by
          rw [hdb3]
          show dbA.videos.filter (fun v => v.id ∉ remV) = _
          rw [hAvids, hupv, List.filter_append]
          congr 1
          · rw [List.filter_map]
            congr 1
            apply List.filter_congr
            intro v _
            have hgid := (hg v).1
            show decide ((g v).id ∉ remV) = decide (v.id ∉ remV)
            rw [hgid]
          · rw [List.filter_eq_self]
            intro w hw
            have h1 := (hAf w hw).2.2.1
            rw [hupnv] at h1
            have h2 : w.id ∉ remV := fun hmem => absurd (hremVbnd _ hmem) (by omega)
            simpa using h2
        have hWfMn1 : (db3.modules.map (fun r => r.id)).Nodup := by
          rw [h3mods, List.map_map]
          have heq : ((fun r : ModuleRow => r.id) ∘ updModFn parsed tid m idx) =
              fun r : ModuleRow => r.id := by
            funext r
            exact (hupf r).1
          rw [heq]
          exact hWfMn
        have hWfMb1 : ∀ r ∈ db3.modules, r.id < db3.nextModuleId := by
          rw [h3mods, h3nm]
          intro r hr
          simp only [List.mem_map] at hr
          obtain ⟨r0, hr0, hreq⟩ := hr
          have h1 := hWfMb r0 hr0
          have h2 := (hupf r0).1
          rw [hreq] at h2
          omega
        have hWfVn3 : (db3.videos.map (fun v => v.id)).Nodup := by
          rw [h3vids]
          simp only [List.map_append]
          rw [List.nodup_append]
          refine ⟨?_, hAnd, ?_⟩
          · rw [List.map_map]
            have heq : ((fun v : VideoRow => v.id) ∘ g) = fun v : VideoRow => v.id :=
              funext fun v => (hg v).1
            rw [heq]
            exact hWfVn.sublist ((List.filter_sublist _).map _)
          · intro a ha hb
            rcases List.mem_map.mp ha with ⟨v, hvf, hv2⟩
            rcases List.mem_map.mp hvf with ⟨v0, hvf0, hveq⟩
            rcases List.mem_filter.mp hvf0 with ⟨hv0, _⟩
            rcases List.mem_map.mp hb with ⟨w, hw, hwid⟩
            have h1 := hWfVb v0 hv0
            have h2 := (hAf w hw).2.2.1
            rw [hupnv] at h2
            have h3g := (hg v0).1
            rw [hveq] at h3g
            omega
        have hWfVb3 : ∀ v ∈ db3.videos, v.id < db3.nextVideoId := by
          rw [h3vids, h3nv]
          intro v hv
          rcases List.mem_append.mp hv with h | h
          · rcases List.mem_map.mp h with ⟨v0, hvf, hveq⟩
            rcases List.mem_filter.mp hvf with ⟨hv0, _⟩
            have h1 := hWfVb v0 hv0
            have h2 := (hg v0).1
            rw [hveq] at h2
            omega
          · exact (hAf v h).2.2.2
        have hWfVm3 : ∀ v ∈ db3.videos, v.moduleId < db3.nextModuleId := by
          rw [h3vids, h3nm]
          intro v hv
          rcases List.mem_append.mp hv with h | h
          · rcases List.mem_map.mp h with ⟨v0, hvf, hveq⟩
            rcases List.mem_filter.mp hvf with ⟨hv0, _⟩
            have h1 := hWfVm v0 hv0
            have h2 := (hg v0).2.1
            rw [hveq] at h2
            omega
          · have := (hAf v h).1
            omega
        obtain ⟨db2, rem2, hrun, h1, h2, h3, hrem, hn1, hn2, hn3, hn4, hn5,
          ⟨f, newsM, hf, hfo, hft, hmods, hnf, hper⟩, hE1, hE3, hG, hI, hI2⟩ :=
          ih (idx + 1) db3 (rem.erase parsed) hsqlrest hNodRest
            (by
              intro k hk
              rw [h3nm]
              exact hmbnd k (by rw [hold]; exact List.mem_cons_of_mem _ hk))
            (by
              intro k hk
              obtain ⟨mr, hmr, hid⟩ := hmex k (by rw [hold]; exact List.mem_cons_of_mem _ hk)
              refine ⟨updModFn parsed tid m idx mr, ?_, ?_⟩
              · rw [h3mods]
                exact List.mem_map.mpr ⟨mr, hmr, rfl⟩
              · rw [(hupf mr).1]
                exact hid)
            hWfMn1 hWfMb1 hWfVn3 hWfVb3 hWfVm3
            (by
              intro u hu vs2 hvs2 k hk
              have h1 := hpvrest u hu vs2 hvs2 k hk
              rw [h3nv]
              omega)
        have hkeep : ∀ v ∈ db.videos, v.moduleId ≠ parsed → v ∈ db3.videos := by
          intro v hv hne
          have hnr : v.id ∉ remV := by
            intro hx
            rcases List.mem_map.mp (hremVsub hx) with ⟨v0, hv0f, hveq⟩
            rcases List.mem_filter.mp hv0f with ⟨hv0, hv0m⟩
            have hv0v : v0 = v := List.inj_on_of_nodup_map hWfVn hv0 hv hveq
            rw [hv0v] at hv0m
            simp only [decide_eq_true_eq] at hv0m
            exact hne hv0m
          rw [h3vids]
          apply List.mem_append_left
          exact List.mem_map.mpr
            ⟨v, List.mem_filter.mpr ⟨hv, by simpa using hnr⟩, hgm v hne⟩
        refine ⟨db2, rem2, by rw [hstep]; exact hrun, by rw [h1, h3top],
          by rw [h3nm] at h2; exact h2, ?_, by rw [hrem, hold]; rfl,
          hn1, hn2, hn3, hn4, hn5, ?_, ?_, ?_, ?_, ?_, ?_⟩
        · rw [h3nv] at h3
          omega
        · refine ⟨fun r => f (updModFn parsed tid m idx r), newsM, ?_, ?_, ?_, ?_, ?_, ?_⟩
          · intro r
            obtain ⟨ha, hb, hcc⟩ := hupf r
            obtain ⟨ha2, hb2, hc2⟩ := hf (updModFn parsed tid m idx r)
            exact ⟨by rw [ha2, ha], by rw [hb2, hb], by rw [hc2, hcc]⟩
          · intro r hr
            rw [hold] at hr
            have h1r := hupo r (fun he => hr (by rw [he]; exact List.mem_cons_self _ _))
            show f (updModFn parsed tid m idx r) = r
            rw [h1r]
            exact hfo r (fun hmem => hr (List.mem_cons_of_mem _ hmem))
          · intro r hr
            have h1r := hupt r hr
            show f (updModFn parsed tid m idx r) = r
            rw [h1r]
            exact hft r hr
          · rw [hmods, h3mods, List.map_map]
            rfl
          · intro w hw
            obtain ⟨ha, hb, hcc, hd⟩ := hnf w hw
            rw [h3nm] at hb
            exact ⟨ha, hb, hcc, hd⟩
          · intro j u hj hcu
            cases j with
            | zero =>
              simp only [List.getElem?_cons_zero, Option.some.injEq] at hj
              subst hj
              rw [hcu] at hc
              cases hc
            | succ j =>
              simp only [List.getElem?_cons_succ] at hj
              obtain ⟨w, hw, ho, hti⟩ := hper j u hj hcu
              refine ⟨w, hw, ?_, hti⟩
              rw [ho]
              unfold orderAt
              congr 1
              push_cast
              ring
        · intro v hv hnm
          rw [hold] at hnm
          have hne : v.moduleId ≠ parsed :=
            fun he => hnm (by rw [he]; exact List.mem_cons_self _ _)
          exact hE1 v (hkeep v hv hne) (fun hmem => hnm (List.mem_cons_of_mem _ hmem))
        · intro x hx hab w hw
          refine hE3 x ?_ ?_ w hw
          · rw [h3nv]
            omega
          · intro w2 hw2
            rw [h3vids] at hw2
            rcases List.mem_append.mp hw2 with h | h
            · rcases List.mem_map.mp h with ⟨v0, hvf, hveq⟩
              rcases List.mem_filter.mp hvf with ⟨hv0, _⟩
              have hgid := (hg v0).1
              rw [hveq] at hgid
              rw [hgid]
              exact hab v0 hv0
            · intro heq
              have h1 := (hAf w2 h).2.2.1
              rw [hupnv] at h1
              omega
        · intro u hu raw2 k vsu hcu hvsu v hv hvm hvnot w hw
          rcases List.mem_cons.mp hu with rfl | hurest
          · rw [hcu] at hc
            injection hc with hraw hk
            subst hk
            rw [hmv] at hvsu
            injection hvsu with hvv
            subst hvv
            have hex : v.id ∈ ((updateModuleRow db k tid u idx).videos.filter
                (fun x => x.moduleId = k)).map (fun x => x.id) := by
              rw [hupv]
              exact List.mem_map.mpr ⟨v, List.mem_filter.mpr ⟨hv, by simpa using hvm⟩, rfl⟩
            have hvrem : v.id ∈ remV := by
              rw [hremV]
              exact mem_foldl_erase (vidOldIds vs) _ _ hex hvnot
            have h3ne : ∀ w2 ∈ db3.videos, w2.id ≠ v.id := by
              intro w2 hw3
              rw [h3vids] at hw3
              rcases List.mem_append.mp hw3 with h | h
              · rcases List.mem_map.mp h with ⟨v0, hvf, hveq⟩
                rcases List.mem_filter.mp hvf with ⟨_, hv0r⟩
                intro heq
                have hgid := (hg v0).1
                rw [hveq] at hgid
                have hvin : v0.id ∈ remV := by
                  rw [← hgid, heq]
                  exact hvrem
                exact absurd hvin (by simpa using hv0r)
              · intro heq
                have h1 := (hAf w2 h).2.2.1
                rw [hupnv] at h1
                have h2 := hWfVb v hv
                omega
            refine hE3 v.id ?_ h3ne w hw
            rw [h3nv]
            have := hWfVb v hv
            omega
          · have hkmem : k ∈ modOldIds rest := by
              unfold modOldIds
              refine List.mem_filterMap.mpr ⟨u, hurest, ?_⟩
              rw [hcu]
            have hne : v.moduleId ≠ parsed := by
              rw [hvm]
              intro he
              rw [he] at hkmem
              exact hpmem hkmem
            exact hG u hurest raw2 k vsu hcu hvsu v (hkeep v hv hne) hvm hvnot w hw
        · intro u hu raw2 k vsu hcu hvsu j v hj hcv
          rcases List.mem_cons.mp hu with rfl | hurest
          · rw [hcu] at hc
            injection hc with hraw hk
            subst hk
            rw [hmv] at hvsu
            injection hvsu with hvv
            subst hvv
            obtain ⟨w, hwnews, hord, htit, hdur⟩ := hAper j v hj hcv
            obtain ⟨hwm, hwt, hwb, _⟩ := hAf w hwnews
            have hw3 : w ∈ db3.videos := by
              rw [h3vids]
              exact List.mem_append_right _ hwnews
            have hw2 : w ∈ db2.videos := by
              refine hE1 w hw3 ?_
              rw [hwm]
              exact hpmem
            refine ⟨w, hw2, hwm, hwt, ?_, hord, htit, hdur⟩
            rw [hupnv] at hwb
            exact hwb
          · obtain ⟨w, hw2, hwm, hwt, hwb, hord, htit, hdur⟩ :=
              hI u hurest raw2 k vsu hcu hvsu j v hj hcv
            refine ⟨w, hw2, hwm, hwt, ?_, hord, htit, hdur⟩
            rw [h3nv] at hwb
            omega
        · intro u hu hcu vsu hvsu j v hj hcv
          rcases List.mem_cons.mp hu with rfl | hurest
          · rw [hcu] at hc
            cases hc
          · obtain ⟨w, hw2, hwt, hbm, hbv, hord, htit, hdur⟩ :=
              hI2 u hurest hcu vsu hvsu j v hj hcv
            refine ⟨w, hw2, hwt, ?_, ?_, hord, htit, hdur⟩
            · rw [h3nm] at hbm
              exact hbm
            · rw [h3nv] at hbv
              omega

/-- Both guard `if`s of the PUT handler out of the way: with the topic
present and at least one allow-listed column in the body, the handler is
the scalar UPDATE followed by the optional modules transaction. -/
theorem putTopic_run (db : Db) (tid : Int) (b : TopicUpdateBody)
    (hex : (db.topics.all (fun r => r.id ≠ tid)) = false)
    (hfield : topicUpdateHasField b = true) :
    putTopic db tid b =
      (match b.modules with
       | some payload =>
           match reconcileModules tid payload { db with topics := db.topics.map (fun r =>
               if r.id = tid then applyTopicScalarUpdate b r else r) } with
           | .ok db2 => (200, db2)
           | .error _ => (500, { db with topics := db.topics.map (fun r =>
               if r.id = tid then applyTopicScalarUpdate b r else r) })
       | none => (200, { db with topics := db.topics.map (fun r =>
           if r.id = tid then applyTopicScalarUpdate b r else r) })) := by
  have h1 : ¬ (db.topics.all (fun r => r.id ≠ tid) = true) := by
    rw [hex]
    simp
  have h2 : ¬ ¬ (topicUpdateHasField b = true) := by
    rw [hfield]
    simp
  unfold putTopic
  rw [if_neg h1, if_neg h2]

/-- A payload whose every entry is skipped walks the loop without touching
the state or the leftover list. -/
theorem reconcileModulesGo_all_skip (tid : Int) :
    ∀ (ps : List ModulePayload) (idx : Nat) (db : Db) (rem : List Int),
    (∀ m ∈ ps, classifyId m.id = .isSkip) →
    reconcileModulesGo tid idx ps db rem = .ok (db, rem) := by
  intro ps
  induction ps with
  | nil => intro idx db rem _; rfl
  | cons m rest ih =>
    intro idx db rem hs
    have hc := hs m (List.mem_cons_self _ _)
    simp only [reconcileModulesGo]
    rw [hc]
    exact ih (idx + 1) db rem (fun u hu => hs u (List.mem_cons_of_mem _ hu))

/-- The whole modules transaction: the loop specification carried through
the trailing leftover deletion (modules never matched by the payload are
removed, and the schema's ON DELETE CASCADE takes their videos with
them). -/
theorem reconcileModules_spec (tid : Int) (ps : List ModulePayload) (db : Db)
    (hsql : SqlOkPayload ps)
    (hNod : (modOldIds ps).Nodup)
    (hmbnd : ∀ k ∈ modOldIds ps, k < db.nextModuleId)
    (hmex : ∀ k ∈ modOldIds ps, ∃ mr ∈ db.modules, mr.id = k)
    (hWf : Db.Wf db)
    (hpv : ∀ u ∈ ps, ∀ vs, u.videos = some vs → ∀ k ∈ vidOldIds vs, k < db.nextVideoId) :
    ∃ dbR, reconcileModules tid ps db = .ok dbR ∧
      dbR.topics = db.topics ∧
      (∀ m2 ∈ dbR.modules, m2.topicId = tid →
        m2.id ∈ modOldIds ps ∨ db.nextModuleId ≤ m2.id) ∧
      (∀ m ∈ db.modules, m.topicId = tid → m.id ∉ modOldIds ps →
        ∀ m2 ∈ dbR.modules, m2.id ≠ m.id) ∧
      (∀ m ∈ db.modules, m.topicId = tid → m.id ∉ modOldIds ps →
        ∀ w ∈ dbR.videos, w.moduleId ≠ m.id) ∧
      (∀ k ∈ modOldIds ps, ∀ m ∈ db.modules, m.id = k → m.topicId = tid →
        ∃ m2 ∈ dbR.modules, m2.id = k ∧ m2.topicId = tid) ∧
      (∀ (j : Nat) (m : ModulePayload), ps[j]? = some m → classifyId m.id = .isNew →
        ∃ w ∈ dbR.modules, db.nextModuleId ≤ w.id ∧ w.topicId = tid ∧
          w.orderIndex = orderAt m.order 0 j ∧
          w.title = jsOrStr m.title ("Untitled Module")) ∧
      (∀ u ∈ ps, ∀ raw k vsu, classifyId u.id = .isOld raw k → u.videos = some vsu →
        ∀ v ∈ db.videos, v.moduleId = k → v.id ∉ vidOldIds vsu →
        ∀ w ∈ dbR.videos, w.id ≠ v.id) ∧
      (∀ u ∈ ps, ∀ raw k vsu, classifyId u.id = .isOld raw k → u.videos = some vsu →
        ∀ (j : Nat) (v : VideoPayload), vsu[j]? = some v → classifyId v.id = .isNew →
        ∃ w ∈ dbR.videos, w.moduleId = k ∧ w.topicId = tid ∧ db.nextVideoId ≤ w.id ∧
          w.orderIndex = orderAt v.order 0 j ∧
          w.title = jsOrStr v.title ("Untitled Video") ∧
          w.durationSeconds = payloadDurationSeconds v.duration) ∧
      (∀ u ∈ ps, classifyId u.id = .isNew → ∀ vsu, u.videos = some vsu →
        ∀ (j : Nat) (v : VideoPayload), vsu[j]? = some v → classifyId v.id = .isNew →
        ∃ w ∈ dbR.videos, w.topicId = tid ∧ db.nextModuleId ≤ w.moduleId ∧
          db.nextVideoId ≤ w.id ∧ w.orderIndex = orderAt v.order 0 j ∧
          w.title = jsOrStr v.title ("Untitled Video") ∧
          w.durationSeconds = payloadDurationSeconds v.duration) := by
  obtain ⟨hMn, hVn, hMb, hVb, hVm⟩ := hWf
  obtain ⟨db2, rem2, hrun, htop, hnm2, hnv2, hrem2, hn1, hn2, hn3, hn4, hn5,
    ⟨f, newsM, hf, hfo, hft, hmods, hnf, hper⟩, hE1, hE3, hG, hI, hI2⟩ :=
    reconcileModulesGo_spec tid ps 0 db
      ((db.modules.filter (fun m => m.topicId = tid)).map (fun m => m.id))
      hsql hNod hmbnd hmex hMn hMb hVn hVb hVm hpv
  set rem : List Int :=
    (db.modules.filter (fun m => m.topicId = tid)).map (fun m => m.id) with hremdef
  have hremsub : rem ⊆ db.modules.map (fun m => m.id) := by
    rw [hremdef]
    intro x hx
    rcases List.mem_map.mp hx with ⟨m0, hm0, he⟩
    exact List.mem_map.mpr ⟨m0, (List.mem_filter.mp hm0).1, he⟩
  have hremNd : rem.Nodup := by
    rw [hremdef]
    exact hMn.sublist (List.Sublist.map _ (List.filter_sublist _))
  have hrem2sub : rem2 ⊆ rem := by
    rw [hrem2]
    exact foldl_erase_subset _ _
  have hrem2bnd : ∀ x ∈ rem2, x < db.nextModuleId := by
    intro x hx
    rcases List.mem_map.mp (hremsub (hrem2sub hx)) with ⟨m0, hm0, he⟩
    have := hMb m0 hm0
    omega
  have hknot : ∀ k ∈ modOldIds ps, k ∉ rem2 := by
    intro k hk hmem
    rw [hrem2] at hmem
    exact ((nodup_mem_foldl_erase _ _ _ hremNd).mp hmem).2 hk
  have hmemrem : ∀ m ∈ db.modules, m.topicId = tid → m.id ∈ rem := by
    intro m hm ht
    rw [hremdef]
    exact List.mem_map.mpr ⟨m, List.mem_filter.mpr ⟨hm, by simpa using ht⟩, rfl⟩
  have hstale : ∀ m ∈ db.modules, m.topicId = tid → m.id ∉ modOldIds ps →
      m.id ∈ rem2 := by
    intro m hm ht hno
    rw [hrem2]
    exact mem_foldl_erase _ _ _ (hmemrem m hm ht) hno
  set dbR : Db := { db2 with
      modules := db2.modules.filter (fun m => m.id ∉ rem2)
      videos := db2.videos.filter (fun v => v.moduleId ∉ rem2) } with hdbR
  have hRm : dbR.modules = db2.modules.filter (fun m => m.id ∉ rem2) := rfl
  have hRv : dbR.videos = db2.videos.filter (fun v => v.moduleId ∉ rem2) := rfl
  refine ⟨dbR, ?_, htop, ?_, ?_, ?_, ?_, ?_, ?_, ?_, ?_⟩
  · simp only [reconcileModules]
    rw [hrun]
  · intro m2 hm2 ht
    rw [hRm] at hm2
    rcases List.mem_filter.mp hm2 with ⟨hm2b, hm2r⟩
    rw [hmods] at hm2b
    rcases List.mem_append.mp hm2b with h | h
    · rcases List.mem_map.mp h with ⟨m0, hm0, he⟩
      have hid : m2.id = m0.id := by
        rw [← he]
        exact (hf m0).1
      have htp : m0.topicId = tid := by
        have h2 := (hf m0).2.1
        rw [he] at h2
        rw [← h2]
        exact ht
      by_cases hin : m0.id ∈ modOldIds ps
      · left
        rw [hid]
        exact hin
      · exfalso
        have h2 := hstale m0 hm0 htp hin
        have h3 : m2.id ∈ rem2 := by
          rw [hid]
          exact h2
        exact (by simpa using hm2r : m2.id ∉ rem2) h3
    · right
      exact (hnf m2 h).2.1
  · intro m hm ht hno m2 hm2
    rw [hRm] at hm2
    rcases List.mem_filter.mp hm2 with ⟨_, hm2r⟩
    intro he
    exact (by simpa using hm2r : m2.id ∉ rem2) (by rw [he]; exact hstale m hm ht hno)
  · intro m hm ht hno w hw
    rw [hRv] at hw
    rcases List.mem_filter.mp hw with ⟨_, hwr⟩
    intro he
    exact (by simpa using hwr : w.moduleId ∉ rem2) (by rw [he]; exact hstale m hm ht hno)
  · intro k hk m hm hid ht
    have hmem2 : f m ∈ db2.modules := by
      rw [hmods]
      exact List.mem_append_left _ (List.mem_map.mpr ⟨m, hm, rfl⟩)
    have hfid : (f m).id = k := by
      rw [(hf m).1]
      exact hid
    refine ⟨f m, ?_, hfid, ?_⟩
    · rw [hRm]
      refine List.mem_filter.mpr ⟨hmem2, ?_⟩
      have h2 : (f m).id ∉ rem2 := by
        rw [hfid]
        exact hknot k hk
      simpa using h2
    · rw [(hf m).2.1]
      exact ht
  · intro j m hj hcu
    obtain ⟨w, hw, ho, hti⟩ := hper j m hj hcu
    obtain ⟨hwt, hwb, _, _⟩ := hnf w hw
    refine ⟨w, ?_, hwb, hwt, ho, hti⟩
    rw [hRm]
    refine List.mem_filter.mpr ⟨?_, ?_⟩
    · rw [hmods]
      exact List.mem_append_right _ hw
    · have h2 : w.id ∉ rem2 := fun hmem => absurd (hrem2bnd _ hmem) (by omega)
      simpa using h2
  · intro u hu raw k vsu hcu hvsu v hv hvm hvnot w hw
    rw [hRv] at hw
    exact hG u hu raw k vsu hcu hvsu v hv hvm hvnot w (List.mem_filter.mp hw).1
  · intro u hu raw k vsu hcu hvsu j v hj hcv
    obtain ⟨w, hw, hwm, hwt, hwb, ho, hti, hd⟩ := hI u hu raw k vsu hcu hvsu j v hj hcv
    refine ⟨w, ?_, hwm, hwt, hwb, ho, hti, hd⟩
    rw [hRv]
    refine List.mem_filter.mpr ⟨hw, ?_⟩
    have hk2 : k ∈ modOldIds ps := by
      unfold modOldIds
      refine List.mem_filterMap.mpr ⟨u, hu, ?_⟩
      rw [hcu]
    have h2 : w.moduleId ∉ rem2 := by
      rw [hwm]
      exact hknot k hk2
    simpa using h2
  · intro u hu hcu vsu hvsu j v hj hcv
    obtain ⟨w, hw, hwt, hbm, hbv, ho, hti, hd⟩ := hI2 u hu hcu vsu hvsu j v hj hcv
    refine ⟨w, ?_, hwt, hbm, hbv, ho, hti, hd⟩
    rw [hRv]
    refine List.mem_filter.mpr ⟨hw, ?_⟩
    have h2 : w.moduleId ∉ rem2 := fun hmem => absurd (hrem2bnd _ hmem) (by omega)
    simpa using h2

theorem sqlOkVidB_ok (vs : List VideoPayload) (h : sqlOkVidB vs = true) : SqlOkVid vs := by
  intro v hv raw k hc
  have h1 := List.all_eq_true.mp h v hv
  rw [hc] at h1
  dsimp only at h1
  revert h1
  cases hs : sqlInt raw with
  | ok k2 =>
    intro h1
    have h3 : k2 = k := by simpa using h1
    rw [h3]
  | error e =>
    intro h1
    exact Bool.noConfusion h1

theorem sqlOkPayloadB_ok (ps : List ModulePayload) (h : sqlOkPayloadB ps = true) :
    SqlOkPayload ps := by
  intro m hm
  have h1 := List.all_eq_true.mp h m hm
  rcases Bool.and_eq_true_iff.mp h1 with ⟨h2, h3⟩
  constructor
  · intro raw k hc
    rw [hc] at h2
    dsimp only at h2
    revert h2
    cases hs : sqlInt raw with
    | ok k2 =>
      intro h2
      have h3 : k2 = k := by simpa using h2
      rw [h3]
    | error e =>
      intro h2
      exact Bool.noConfusion h2
  · intro vs hvs
    rw [hvs] at h3
    exact sqlOkVidB_ok vs h3

theorem vidBoundB_ok (ps : List ModulePayload) (n : Int) (h : vidBoundB ps n = true) :
    ∀ u ∈ ps, ∀ vs, u.videos = some vs → ∀ k ∈ vidOldIds vs, k < n := by
  intro u hu vs hvs k hk
  have h1 := List.all_eq_true.mp h u hu
  rw [hvs] at h1
  have h2 := List.all_eq_true.mp h1 k hk
  exact of_decide_eq_true h2

/-- C1 counterexample: a PUT body that carries a modules array and nothing
else is answered 400 before the reconciliation ever starts - `modules` is
not an allow-listed UPDATE column - so the handler completes with the
stale module still persisted even though the payload names no module at
all. -/
theorem modules_replacement_claim_counterexample :
    (putTopic c1Db 1 c1Body).1 = 400 ∧
    (putTopic c1Db 1 c1Body).2.modules = [⟨7, 1, "Stale", "", 1, 0⟩] ∧
    modOldIds [] = ([] : List Int) := by
  refine ⟨by decide, by decide, rfl⟩

/-- C1 (amended): when the body also carries at least one allow-listed
scalar column - otherwise the handler answers 400 without reconciling -
and every named id binds cleanly, PUT /api/topics/:id with a modules
array replaces the topic's child set: every surviving module of the topic
is either named by the payload or freshly minted, every persisted module
the payload does not name is deleted, every cleanly-named persisted module
survives, and inside each surviving named module that carries a videos
array every persisted video the array does not name is deleted. -/
theorem put_topic_modules_full_replace (db : Db) (tid : Int) (b : TopicUpdateBody)
    (ps : List ModulePayload)
    (hWf : Db.Wf db)
    (hex : (db.topics.all (fun r => r.id ≠ tid)) = false)
    (hfield : topicUpdateHasField b = true)
    (hmods : b.modules = some ps)
    (hsql : SqlOkPayload ps)
    (hNod : (modOldIds ps).Nodup)
    (hmbnd : ∀ k ∈ modOldIds ps, k < db.nextModuleId)
    (hmex : ∀ k ∈ modOldIds ps, ∃ mr ∈ db.modules, mr.id = k)
    (hpv : ∀ u ∈ ps, ∀ vs, u.videos = some vs → ∀ k ∈ vidOldIds vs, k < db.nextVideoId) :
    ∃ db2, putTopic db tid b = (200, db2) ∧
      (∀ m2 ∈ db2.modules, m2.topicId = tid →
        m2.id ∈ modOldIds ps ∨ db.nextModuleId ≤ m2.id) ∧
      (∀ m ∈ db.modules, m.topicId = tid → m.id ∉ modOldIds ps →
        ∀ m2 ∈ db2.modules, m2.id ≠ m.id) ∧
      (∀ m ∈ db.modules, m.topicId = tid → m.id ∉ modOldIds ps →
        ∀ w ∈ db2.videos, w.moduleId ≠ m.id) ∧
      (∀ k ∈ modOldIds ps, ∀ m ∈ db.modules, m.id = k → m.topicId = tid →
        ∃ m2 ∈ db2.modules, m2.id = k ∧ m2.topicId = tid) ∧
      (∀ u ∈ ps, ∀ raw k vsu, classifyId u.id = .isOld raw k → u.videos = some vsu →
        ∀ v ∈ db.videos, v.moduleId = k → v.id ∉ vidOldIds vsu →
        ∀ w ∈ db2.videos, w.id ≠ v.id) := by
  obtain ⟨dbR, hR, hRt, hA, hB, hB2, hC, hPerM, hG2, hIold, hInew⟩ :=
    reconcileModules_spec tid ps
      { db with topics := db.topics.map (fun r =>
          if r.id = tid then applyTopicScalarUpdate b r else r) }
      hsql hNod hmbnd hmex hWf hpv
  refine ⟨dbR, ?_, hA, hB, hB2, hC, hG2⟩
  rw [putTopic_run db tid b hex hfield, hmods]
  dsimp only
  rw [hR]

theorem put_topic_modules_full_replace_witness :
    Db.Wf c1WDb ∧
    (c1WDb.topics.all (fun r => r.id ≠ 1)) = false ∧
    topicUpdateHasField c1WBody = true ∧
    c1WBody.modules = some c1WPs ∧
    SqlOkPayload c1WPs ∧
    (modOldIds c1WPs).Nodup ∧
    (∀ k ∈ modOldIds c1WPs, k < c1WDb.nextModuleId) ∧
    (∀ k ∈ modOldIds c1WPs, ∃ mr ∈ c1WDb.modules, mr.id = k) ∧
    (∀ u ∈ c1WPs, ∀ vs, u.videos = some vs →
      ∀ k ∈ vidOldIds vs, k < c1WDb.nextVideoId) ∧
    (∃ db2, putTopic c1WDb 1 c1WBody = (200, db2) ∧
      (∀ m2 ∈ db2.modules, m2.topicId = 1 →
        m2.id ∈ modOldIds c1WPs ∨ c1WDb.nextModuleId ≤ m2.id) ∧
      (∀ m ∈ c1WDb.modules, m.topicId = 1 → m.id ∉ modOldIds c1WPs →
        ∀ m2 ∈ db2.modules, m2.id ≠ m.id) ∧
      (∀ m ∈ c1WDb.modules, m.topicId = 1 → m.id ∉ modOldIds c1WPs →
        ∀ w ∈ db2.videos, w.moduleId ≠ m.id) ∧
      (∀ k ∈ modOldIds c1WPs, ∀ m ∈ c1WDb.modules, m.id = k → m.topicId = 1 →
        ∃ m2 ∈ db2.modules, m2.id = k ∧ m2.topicId = 1) ∧
      (∀ u ∈ c1WPs, ∀ raw k vsu, classifyId u.id = .isOld raw k → u.videos = some vsu →
        ∀ v ∈ c1WDb.videos, v.moduleId = k → v.id ∉ vidOldIds vsu →
        ∀ w ∈ db2.videos, w.id ≠ v.id)) :=
  ⟨⟨by decide, by decide, by decide, by decide, by decide⟩, by decide, rfl, rfl,
   sqlOkPayloadB_ok c1WPs (by decide), by decide, by decide, by decide,
   vidBoundB_ok c1WPs c1WDb.nextVideoId (by decide),
   put_topic_modules_full_replace c1WDb 1 c1WBody c1WPs
     ⟨by decide, by decide, by decide, by decide, by decide⟩ (by decide) rfl rfl
     (sqlOkPayloadB_ok c1WPs (by decide)) (by decide) (by decide) (by decide)
     (vidBoundB_ok c1WPs c1WDb.nextVideoId (by decide))⟩

/-- C2 counterexample: a module entry with an absent id falls through both
branches of the classification - it is neither inserted nor updated - so
the handler answers 200 with no module row created, where the claim
promises an insert for every entry whose id is absent. -/
theorem absent_id_entry_not_inserted_counterexample :
    (putTopic c2Db 1 c2Body).1 = 200 ∧
    (putTopic c2Db 1 c2Body).2.modules = [] := by
  refine ⟨by decide, by decide⟩

/-- C2 (amended): in the reconciliation only the entries whose id string
starts with the `new-` placeholder prefix are inserted, with order_index
taken from the entry's `order` field or its 1-based array position as the
fallback; this holds for module entries and for video entries under both
a placeholder module and a cleanly-named existing module. Entries whose
id is absent, empty, zero, or unparseable are skipped without an error -
the request still answers 200 - but no row is inserted for them. -/
theorem reconcile_inserts_placeholders_skips_malformed (db : Db) (tid : Int)
    (b : TopicUpdateBody) (ps : List ModulePayload)
    (hWf : Db.Wf db)
    (hex : (db.topics.all (fun r => r.id ≠ tid)) = false)
    (hfield : topicUpdateHasField b = true)
    (hmods : b.modules = some ps)
    (hsql : SqlOkPayload ps)
    (hNod : (modOldIds ps).Nodup)
    (hmbnd : ∀ k ∈ modOldIds ps, k < db.nextModuleId)
    (hmex : ∀ k ∈ modOldIds ps, ∃ mr ∈ db.modules, mr.id = k)
    (hpv : ∀ u ∈ ps, ∀ vs, u.videos = some vs → ∀ k ∈ vidOldIds vs, k < db.nextVideoId) :
    (∃ db2, putTopic db tid b = (200, db2) ∧
      (∀ (j : Nat) (m : ModulePayload), ps[j]? = some m → classifyId m.id = .isNew →
        ∃ w ∈ db2.modules, db.nextModuleId ≤ w.id ∧ w.topicId = tid ∧
          w.orderIndex = orderAt m.order 0 j ∧
          w.title = jsOrStr m.title ("Untitled Module")) ∧
      (∀ u ∈ ps, ∀ raw k vsu, classifyId u.id = .isOld raw k → u.videos = some vsu →
        ∀ (j : Nat) (v : VideoPayload), vsu[j]? = some v → classifyId v.id = .isNew →
        ∃ w ∈ db2.videos, w.moduleId = k ∧ w.topicId = tid ∧ db.nextVideoId ≤ w.id ∧
          w.orderIndex = orderAt v.order 0 j ∧
          w.title = jsOrStr v.title ("Untitled Video") ∧
          w.durationSeconds = payloadDurationSeconds v.duration) ∧
      (∀ u ∈ ps, classifyId u.id = .isNew → ∀ vsu, u.videos = some vsu →
        ∀ (j : Nat) (v : VideoPayload), vsu[j]? = some v → classifyId v.id = .isNew →
        ∃ w ∈ db2.videos, w.topicId = tid ∧ db.nextModuleId ≤ w.moduleId ∧
          db.nextVideoId ≤ w.id ∧ w.orderIndex = orderAt v.order 0 j ∧
          w.title = jsOrStr v.title ("Untitled Video") ∧
          w.durationSeconds = payloadDurationSeconds v.duration)) ∧
    (∀ ps2 : List ModulePayload, (∀ m ∈ ps2, classifyId m.id = .isSkip) →
      (putTopic db tid { b with modules := some ps2 }).1 = 200) := by
  constructor
  · obtain ⟨dbR, hR, hRt, hA, hB, hB2, hC, hPerM, hG2, hIold, hInew⟩ :=
      reconcileModules_spec tid ps
        { db with topics := db.topics.map (fun r =>
            if r.id = tid then applyTopicScalarUpdate b r else r) }
        hsql hNod hmbnd hmex hWf hpv
    refine ⟨dbR, ?_, hPerM, hIold, hInew⟩
    rw [putTopic_run db tid b hex hfield, hmods]
    dsimp only
    rw [hR]
  · intro ps2 hskip
    rw [putTopic_run db tid { b with modules := some ps2 } hex hfield]
    dsimp only
    set D : Db := { db with topics := db.topics.map (fun r =>
        if r.id = tid then applyTopicScalarUpdate { b with modules := some ps2 } r else r) }
      with hD
    have hrm : reconcileModules tid ps2 D = .ok
        { D with
            modules := D.modules.filter (fun m => m.id ∉
              ((D.modules.filter (fun m => m.topicId = tid)).map (fun m => m.id)))
            videos := D.videos.filter (fun v => v.moduleId ∉
              ((D.modules.filter (fun m => m.topicId = tid)).map (fun m => m.id))) } := by
      simp only [reconcileModules]
      rw [reconcileModulesGo_all_skip tid ps2 0 D _ hskip]
    rw [hrm]

theorem reconcile_inserts_placeholders_skips_malformed_witness :
    Db.Wf c2WDb ∧
    (c2WDb.topics.all (fun r => r.id ≠ 1)) = false ∧
    topicUpdateHasField c2WBody = true ∧
    c2WBody.modules = some c2WPs ∧
    SqlOkPayload c2WPs ∧
    (modOldIds c2WPs).Nodup ∧
    (∀ k ∈ modOldIds c2WPs, k < c2WDb.nextModuleId) ∧
    (∀ k ∈ modOldIds c2WPs, ∃ mr ∈ c2WDb.modules, mr.id = k) ∧
    (∀ u ∈ c2WPs, ∀ vs, u.videos = some vs →
      ∀ k ∈ vidOldIds vs, k < c2WDb.nextVideoId) ∧
    ((∃ db2, putTopic c2WDb 1 c2WBody = (200, db2) ∧
      (∀ (j : Nat) (m : ModulePayload), c2WPs[j]? = some m → classifyId m.id = .isNew →
        ∃ w ∈ db2.modules, c2WDb.nextModuleId ≤ w.id ∧ w.topicId = 1 ∧
          w.orderIndex = orderAt m.order 0 j ∧
          w.title = jsOrStr m.title ("Untitled Module")) ∧
      (∀ u ∈ c2WPs, ∀ raw k vsu, classifyId u.id = .isOld raw k → u.videos = some vsu →
        ∀ (j : Nat) (v : VideoPayload), vsu[j]? = some v → classifyId v.id = .isNew →
        ∃ w ∈ db2.videos, w.moduleId = k ∧ w.topicId = 1 ∧ c2WDb.nextVideoId ≤ w.id ∧
          w.orderIndex = orderAt v.order 0 j ∧
          w.title = jsOrStr v.title ("Untitled Video") ∧
          w.durationSeconds = payloadDurationSeconds v.duration) ∧
      (∀ u ∈ c2WPs, classifyId u.id = .isNew → ∀ vsu, u.videos = some vsu →
        ∀ (j : Nat) (v : VideoPayload), vsu[j]? = some v → classifyId v.id = .isNew →
        ∃ w ∈ db2.videos, w.topicId = 1 ∧ c2WDb.nextModuleId ≤ w.moduleId ∧
          c2WDb.nextVideoId ≤ w.id ∧ w.orderIndex = orderAt v.order 0 j ∧
          w.title = jsOrStr v.title ("Untitled Video") ∧
          w.durationSeconds = payloadDurationSeconds v.duration)) ∧
    (∀ ps2 : List ModulePayload, (∀ m ∈ ps2, classifyId m.id = .isSkip) →
      (putTopic c2WDb 1 { c2WBody with modules := some ps2 }).1 = 200)) :=
  ⟨⟨by decide, by decide, by decide, by decide, by decide⟩, by decide, rfl, rfl,
   sqlOkPayloadB_ok c2WPs (by decide), by decide, by decide, by decide,
   vidBoundB_ok c2WPs c2WDb.nextVideoId (by decide),
   reconcile_inserts_placeholders_skips_malformed c2WDb 1 c2WBody c2WPs
     ⟨by decide, by decide, by decide, by decide, by decide⟩ (by decide) rfl rfl
     (sqlOkPayloadB_ok c2WPs (by decide)) (by decide) (by decide) (by decide)
     (vidBoundB_ok c2WPs c2WDb.nextVideoId (by decide))⟩

/-- C4: the scalar UPDATE runs on the pool and commits before BEGIN; the
child reconciliation runs on a dedicated client inside the transaction, so
when any child statement fails the ROLLBACK discards every module and
video change of the request, the route answers 500, and the committed
scalar update stays in effect. -/
theorem reconcile_failure_rolls_back_children (db : Db) (tid : Int) (b : TopicUpdateBody)
    (ps : List ModulePayload) (e : String)
    (hex : (db.topics.all (fun r => r.id ≠ tid)) = false)
    (hfield : topicUpdateHasField b = true)
    (hmods : b.modules = some ps)
    (herr : reconcileModules tid ps { db with topics := db.topics.map (fun r =>
        if r.id = tid then applyTopicScalarUpdate b r else r) } = .error e) :
    putTopic db tid b = (500, { db with topics := db.topics.map (fun r =>
        if r.id = tid then applyTopicScalarUpdate b r else r) }) ∧
    (putTopic db tid b).2.modules = db.modules ∧
    (putTopic db tid b).2.videos = db.videos ∧
    (putTopic db tid b).2.topics = db.topics.map (fun r =>
        if r.id = tid then applyTopicScalarUpdate b r else r) := by
  have h := putTopic_run db tid b hex hfield
  rw [hmods] at h
  dsimp only at h
  rw [herr] at h
  refine ⟨h, ?_, ?_, ?_⟩ <;> rw [h]

theorem reconcile_failure_rolls_back_children_witness :
    (c4WDb.topics.all (fun r => r.id ≠ 1)) = false ∧
    topicUpdateHasField c4WBody = true ∧
    c4WBody.modules = some c4WPs ∧
    reconcileModules 1 c4WPs { c4WDb with topics := c4WDb.topics.map (fun r =>
        if r.id = 1 then applyTopicScalarUpdate c4WBody r else r) } =
      .error ("invalid input syntax for type integer") ∧
    (putTopic c4WDb 1 c4WBody = (500, { c4WDb with topics := c4WDb.topics.map (fun r =>
        if r.id = 1 then applyTopicScalarUpdate c4WBody r else r) }) ∧
      (putTopic c4WDb 1 c4WBody).2.modules = c4WDb.modules ∧
      (putTopic c4WDb 1 c4WBody).2.videos = c4WDb.videos ∧
      (putTopic c4WDb 1 c4WBody).2.topics = c4WDb.topics.map (fun r =>
        if r.id = 1 then applyTopicScalarUpdate c4WBody r else r)) :=
  ⟨by decide, rfl, rfl, rfl,
   reconcile_failure_rolls_back_children c4WDb 1 c4WBody c4WPs
     ("invalid input syntax for type integer") (by decide) rfl rfl rfl⟩

/-- The foreign-key error path of the transaction: naming a
cleanly-binding module id that has no persisted row and placing a
placeholder video under it makes INSERT INTO topic_videos violate the
module_id foreign key, so the transaction aborts, the request answers
500, and no child change survives. -/
theorem fk_violation_aborts_transaction :
    (putTopic fkDb 1 fkBody).1 = 500 ∧
    (putTopic fkDb 1 fkBody).2.modules = fkDb.modules ∧
    (putTopic fkDb 1 fkBody).2.videos = fkDb.videos := by
  refine ⟨by decide, by decide, by decide⟩
